import Mathlib

/-!
Shallow embedding of the identity-reconciliation service in `src/index.ts`
(bitespeed). The store is a Postgres table of contacts; we model it as a
`List Contact` in insertion order (SQL reads without ORDER BY return rows
in a stable order for this workload; the code relies only on membership
and on the order produced by its own JavaScript-side sorts, which we model
exactly). Requests carry optional email / phone strings; JavaScript
falsiness of `undefined` / `""` is modelled by `Option.none`. `NOW()` is
passed in as the `now` argument. SERIAL id assignment is modelled by
`nextId` (one more than the largest id in the table).
-/

/-- `linkprecedence` column: CHECK (linkprecedence IN ('primary','secondary')). -/
inductive Precedence where
  | primary
  | secondary
deriving DecidableEq, Repr

/-- One row of the `Contact` table, fields in the order of the
TypeScript `Contact` interface. Timestamps are modelled as `Nat`. -/
structure Contact where
  id : Nat
  phonenumber : Option String
  email : Option String
  linkedid : Option Nat
  linkprecedence : Precedence
  createdat : Nat
  updateat : Nat
  deletedat : Option Nat
deriving DecidableEq, Repr

/-- The JSON body `{ contact: { ... } }` returned by `/identify`. -/
structure IdentifyResponse where
  primaryContactId : Nat
  emails : List String
  phoneNumbers : List String
  secondaryContactIds : List Nat
deriving DecidableEq, Repr

/-- JavaScript `Set` insertion: add an element unless already present
(`Set.add` keeps first-insertion order). -/
def insertUnique {α : Type} [DecidableEq α] (acc : List α) (x : α) : List α :=
  if x ∈ acc then acc else acc ++ [x]

/-- `[...new Set(l)]`: deduplicate keeping the first occurrence of each value. -/
def setDedup {α : Type} [DecidableEq α] (l : List α) : List α :=
  l.foldl insertUnique []

/-- `Map.set` keyed by contact id: replace the value at an existing key
(keeping its position) or append a new entry. -/
def mapSet (m : List Contact) (x : Contact) : List Contact :=
  if m.any (fun y => decide (y.id = x.id)) then
    m.map (fun y => if y.id = x.id then x else y)
  else m ++ [x]

/-- `new Map(); list.forEach(c => map.set(c.id, c)); [...map.values()]`:
deduplicate a contact list by id. -/
def dedupById (cs : List Contact) : List Contact :=
  cs.foldl mapSet []

/-- Insert into a list sorted by ascending `createdat`, after strictly
smaller keys and before equal-or-larger ones. -/
def insertByCreated (c : Contact) : List Contact → List Contact
  | [] => [c]
  | x :: xs => if c.createdat ≤ x.createdat then c :: x :: xs else x :: insertByCreated c xs

/-- `arr.sort((a, b) => a.createdat - b.createdat)`: ECMAScript sort is
stable, so it equals the (unique) stable sort by `createdat`, here realised
as insertion sort. -/
def sortByCreated (l : List Contact) : List Contact :=
  l.foldr insertByCreated []

/-- Next SERIAL id: Postgres hands out ids larger than every existing one;
rows are never physically deleted here. -/
def nextId (db : List Contact) : Nat :=
  db.foldl (fun m c => max m c.id) 0 + 1

/-- `createContact`: INSERT INTO Contact ... VALUES (..., NOW(), NOW())
RETURNING *. Returns the updated table and the new row. -/
def createContact (db : List Contact) (email phone : Option String)
    (linkedid : Option Nat) (prec : Precedence) (now : Nat) :
    List Contact × Contact :=
  let c : Contact :=
    { id := nextId db, phonenumber := phone, email := email,
      linkedid := linkedid, linkprecedence := prec,
      createdat := now, updateat := now, deletedat := none }
  (db ++ [c], c)

/-- `updateContact`: UPDATE Contact SET linkedid = $1, linkprecedence = $2,
updateat = NOW() WHERE id = $3. -/
def updateContact (db : List Contact) (cid : Nat) (lid : Option Nat)
    (prec : Precedence) (now : Nat) : List Contact :=
  db.map (fun c =>
    if c.id = cid then
      { c with linkedid := lid, linkprecedence := prec, updateat := now }
    else c)

/-- `updateSecondaryLinks`: UPDATE Contact SET linkedid = $1,
updateat = NOW() WHERE linkedid = $2. -/
def updateSecondaryLinks (db : List Contact) (oldP newP : Nat) (now : Nat) :
    List Contact :=
  db.map (fun c =>
    if c.linkedid = some oldP then
      { c with linkedid := some newP, updateat := now }
    else c)

/-- Step 3 of the handler: for each primary to demote (all but the first of
the sorted primary list), demote it under the ultimate primary and repoint
its secondaries. -/
def demoteAll (db : List Contact) (toDemote : List Contact) (uid now : Nat) :
    List Contact :=
  toDemote.foldl
    (fun d q =>
      updateSecondaryLinks (updateContact d q.id (some uid) Precedence.secondary now) q.id uid now)
    db

/-- SQL predicate `(email = $1 OR phonenumber = $2)`: a NULL parameter or a
NULL column never compares equal. -/
def matchesRequest (email phone : Option String) (c : Contact) : Bool :=
  (match email with
   | some e => decide (c.email = some e)
   | none => false) ||
  (match phone with
   | some p => decide (c.phonenumber = some p)
   | none => false)

/-- `findContactsByEmailOrPhone`: returns `[]` when `!email && !phone`,
else SELECT * FROM Contact WHERE (email = $1 OR phonenumber = $2) AND
deletedat IS NULL. -/
def findContactsByEmailOrPhone (db : List Contact) (email phone : Option String) :
    List Contact :=
  if email = none ∧ phone = none then []
  else db.filter (fun c => matchesRequest email phone c && decide (c.deletedat = none))

/-- One `forEach` step of the primary-id collection: a direct primary adds
its id, anything else adds its `linkedid` when truthy. -/
def pidStep (acc : List Nat) (c : Contact) : List Nat :=
  if c.linkprecedence = Precedence.primary then insertUnique acc c.id
  else
    match c.linkedid with
    | some l => if l ≠ 0 then insertUnique acc l else acc
    | none => acc

/-- Step 1 of the handler: collect into a `Set` the ids of direct primaries
and, for other matches, their truthy `linkedid` values. -/
def primaryIds (cs : List Contact) : List Nat :=
  cs.foldl pidStep []

/-- Fetch of the candidate primaries: SELECT * FROM Contact WHERE
id = ANY($1::int[]) AND deletedat IS NULL, guarded by `primaryIdSet.size > 0`. -/
def primariesFromDb (db : List Contact) (pids : List Nat) : List Contact :=
  if pids.isEmpty then []
  else db.filter (fun c => decide (c.id ∈ pids) && decide (c.deletedat = none))

/-- `allContacts`: the matched contacts and the fetched primaries,
deduplicated by id via a `Map`. -/
def candidateContacts (db : List Contact) (email phone : Option String) :
    List Contact :=
  let existing := findContactsByEmailOrPhone db email phone
  dedupById (existing ++ primariesFromDb db (primaryIds existing))

/-- `allPrimaryContacts` after the in-place sort by `createdat`. -/
def candidatePrimaries (db : List Contact) (email phone : Option String) :
    List Contact :=
  sortByCreated
    ((candidateContacts db email phone).filter
      (fun c => decide (c.linkprecedence = Precedence.primary)))

/-- `getAllEmails`: non-null emails, deduplicated by a `Set`. -/
def getAllEmails (cs : List Contact) : List String :=
  setDedup (cs.filterMap (fun c => c.email))

/-- `getAllPhones`: non-null phone numbers, deduplicated by a `Set`. -/
def getAllPhones (cs : List Contact) : List String :=
  setDedup (cs.filterMap (fun c => c.phonenumber))

/-- `isNewEmail = email && !allEmails.includes(email)`. -/
def isNewEmail (db : List Contact) (email phone : Option String) : Bool :=
  match email with
  | some s => !(decide (s ∈ getAllEmails (candidateContacts db email phone)))
  | none => false

/-- `isNewPhone = phonenumber && !allPhones.includes(phonenumber)`. -/
def isNewPhone (db : List Contact) (email phone : Option String) : Bool :=
  match phone with
  | some s => !(decide (s ∈ getAllPhones (candidateContacts db email phone)))
  | none => false

/-- `getAllContactsLinkedToPrimary`: SELECT * FROM Contact WHERE
(id = $1 OR linkedid = $1) AND deletedat IS NULL. -/
def getAllContactsLinkedToPrimary (db : List Contact) (primaryId : Nat) :
    List Contact :=
  db.filter (fun c =>
    (decide (c.id = primaryId) || decide (c.linkedid = some primaryId)) &&
    decide (c.deletedat = none))

/-- `buildResponse`: picks the first primary with `find` (the non-null
assertion `!` throws when there is none, modelled by `Option.none`) and
lists every secondary id. -/
def buildResponse (contacts : List Contact) : Option IdentifyResponse :=
  match contacts.find? (fun c => decide (c.linkprecedence = Precedence.primary)) with
  | none => none
  | some primary =>
    some
      { primaryContactId := primary.id
      , emails := getAllEmails contacts
      , phoneNumbers := getAllPhones contacts
      , secondaryContactIds :=
          (contacts.filter (fun c => decide (c.linkprecedence = Precedence.secondary))).map
            (fun c => c.id) }

/-- The table after the matched-path writes: the demotion loop (step 3)
over `db2 = demoteAll ...`, then the optional insert of a new secondary
(step 4). -/
def dbAfterWrites (db : List Contact) (email phone : Option String) (now : Nat)
    (ultimate : Contact) (toDemote : List Contact) : List Contact :=
  if isNewEmail db email phone || isNewPhone db email phone then
    (createContact (demoteAll db toDemote ultimate.id now)
      (if isNewEmail db email phone then email else none)
      (if isNewPhone db email phone then phone else none)
      (some ultimate.id) Precedence.secondary now).1
  else demoteAll db toDemote ultimate.id now

/-- The POST `/identify` handler. Returns the table after the request and
`some response` on success, or `none` when the handler throws and the catch
block answers 500 (dereferencing an undefined `ultimatePrimary`, or the `!`
in `buildResponse`). On the throwing paths no write has executed, because
`ultimatePrimary.id` is evaluated before each dependent write. -/
def identify (db : List Contact) (email phone : Option String) (now : Nat) :
    List Contact × Option IdentifyResponse :=
  if (findContactsByEmailOrPhone db email phone).isEmpty then
    ((createContact db email phone none Precedence.primary now).1,
     some
       { primaryContactId := (createContact db email phone none Precedence.primary now).2.id
       , emails := (createContact db email phone none Precedence.primary now).2.email.toList
       , phoneNumbers := (createContact db email phone none Precedence.primary now).2.phonenumber.toList
       , secondaryContactIds := [] })
  else
    match candidatePrimaries db email phone with
    | [] => (db, none)
    | ultimate :: toDemote =>
      (dbAfterWrites db email phone now ultimate toDemote,
       buildResponse
         (getAllContactsLinkedToPrimary
           (dbAfterWrites db email phone now ultimate toDemote) ultimate.id))

/-- Row-level effect of `updateContact q.id (some uid) secondary`. -/
def demoteSelf (uid qid now : Nat) (c : Contact) : Contact :=
  if c.id = qid then
    { c with linkedid := some uid, linkprecedence := Precedence.secondary, updateat := now }
  else c

/-- Row-level effect of `updateSecondaryLinks q.id uid`. -/
def relinkStep (uid qid now : Nat) (c : Contact) : Contact :=
  if c.linkedid = some qid then { c with linkedid := some uid, updateat := now } else c

/-- The row-level effect of one demotion iteration (`updateContact`
followed by `updateSecondaryLinks` is a composition of per-row maps). -/
def demoteStep (uid qid now : Nat) (c : Contact) : Contact :=
  relinkStep uid qid now (demoteSelf uid qid now c)

/-- The row-level effect of the whole demotion loop. -/
def demoteList (td : List Contact) (uid now : Nat) (c : Contact) : Contact :=
  td.foldl (fun x q => demoteStep uid q.id now x) c

/-- The sequence of UPDATE statements the demotion loop issues. -/
def demoteWrites (toDemote : List Contact) (uid now : Nat) :
    List (List Contact → List Contact) :=
  toDemote.foldr
    (fun q acc =>
      (fun d => updateContact d q.id (some uid) Precedence.secondary now) ::
      (fun d => updateSecondaryLinks d q.id uid now) :: acc)
    []

/-- Every write statement one `/identify` request issues, in program order.
There is no transaction around them in the source: each runs and commits
independently. -/
def identifyWrites (db : List Contact) (email phone : Option String) (now : Nat) :
    List (List Contact → List Contact) :=
  if (findContactsByEmailOrPhone db email phone).isEmpty then
    [fun d => (createContact d email phone none Precedence.primary now).1]
  else
    match candidatePrimaries db email phone with
    | [] => []
    | ultimate :: toDemote =>
      demoteWrites toDemote ultimate.id now ++
      (if isNewEmail db email phone || isNewPhone db email phone then
        [fun d => (createContact d
          (if isNewEmail db email phone then email else none)
          (if isNewPhone db email phone then phone else none)
          (some ultimate.id) Precedence.secondary now).1]
      else [])

/-- Run a prefix of the write sequence (what has committed when a later
write fails). -/
def applyWrites (ws : List (List Contact → List Contact)) (db : List Contact) :
    List Contact :=
  ws.foldl (fun d w => w d) db

/-- Well-formedness of the stored graph, as the spec's data-model
invariants state it: ids unique and nonzero, primaries carry no `linkedid`,
and every secondary links to an existing live primary. -/
def WellFormed (db : List Contact) : Prop :=
  (db.map (fun c => c.id)).Nodup ∧
  (∀ c ∈ db, c.id ≠ 0) ∧
  (∀ c ∈ db, c.linkprecedence = Precedence.primary → c.linkedid = none) ∧
  (∀ c ∈ db, c.linkprecedence = Precedence.secondary →
    ∃ t ∈ db, some t.id = c.linkedid ∧ t.linkprecedence = Precedence.primary ∧
      t.deletedat = none)

instance (db : List Contact) : Decidable (WellFormed db) := by
  unfold WellFormed
  infer_instance

/-- Reference definition following the spec's words for C3: the complete
membership of every candidate cluster — each candidate primary plus all
non-deleted contacts whose `linkedId` equals that primary's id. -/
def specClusterMembers (db : List Contact) (email phone : Option String) :
    List Contact :=
  candidatePrimaries db email phone ++
    db.filter (fun c =>
      (candidatePrimaries db email phone).any (fun q => decide (c.linkedid = some q.id)) &&
      decide (c.deletedat = none))

/-- Reference definition following the spec's words: deduplicated union of
emails over the full cluster membership. -/
def specAllEmails (db : List Contact) (email phone : Option String) : List String :=
  setDedup ((specClusterMembers db email phone).filterMap (fun c => c.email))

/-- Reference definition following the spec's words: deduplicated union of
phones over the full cluster membership. -/
def specAllPhones (db : List Contact) (email phone : Option String) : List String :=
  setDedup ((specClusterMembers db email phone).filterMap (fun c => c.phonenumber))

/-- Spec-side `isNewEmail`: the submitted email is present and absent from
the full-membership union. -/
def specIsNewEmail (db : List Contact) (email phone : Option String) : Bool :=
  match email with
  | some s => !(decide (s ∈ specAllEmails db email phone))
  | none => false

/-- Spec-side `isNewPhone`. -/
def specIsNewPhone (db : List Contact) (email phone : Option String) : Bool :=
  match phone with
  | some s => !(decide (s ∈ specAllPhones db email phone))
  | none => false

/-- Row builder for the concrete stores used in the witness scenarios. -/
def mkC (i : Nat) (ph em : Option String) (lk : Option Nat) (pr : Precedence)
    (cr : Nat) (del : Option Nat) : Contact :=
  { id := i, phonenumber := ph, email := em, linkedid := lk,
    linkprecedence := pr, createdat := cr, updateat := cr, deletedat := del }

/-- Two primaries that a single request links (merge scenario). -/
def wdbC1 : List Contact :=
  [ mkC 1 none (some "a@x.com") none Precedence.primary 0 none
  , mkC 2 (some "222") none none Precedence.primary 5 none ]

/-- Two primaries where the younger one owns a secondary (no-re-chaining
scenario). -/
def wdbC2 : List Contact :=
  [ mkC 1 none (some "a@x.com") none Precedence.primary 0 none
  , mkC 2 (some "222") none none Precedence.primary 5 none
  , mkC 3 (some "333") none (some 2) Precedence.secondary 6 none ]

/-- One cluster whose secondary holds the phone; the request brings a new
phone (new-information scenario). -/
def wdbC3 : List Contact :=
  [ mkC 1 none (some "a@x.com") none Precedence.primary 0 none
  , mkC 2 (some "111") none (some 1) Precedence.secondary 4 none ]

/-- Two primaries, the younger with a secondary (atomicity scenario). -/
def wdbC4 : List Contact :=
  [ mkC 1 none (some "b@x.com") none Precedence.primary 0 none
  , mkC 2 (some "444") none none Precedence.primary 5 none
  , mkC 3 (some "555") none (some 2) Precedence.secondary 6 none ]

/-- A single primary already holding the submitted pair (idempotence
scenario). -/
def wdbC5 : List Contact :=
  [ mkC 1 (some "111") (some "c@x.com") none Precedence.primary 0 none ]

/-- A store with one live and one soft-deleted contact sharing an email
(deleted-exclusion scenario). -/
def wdbC7 : List Contact :=
  [ mkC 1 none (some "d@x.com") none Precedence.primary 0 none
  , mkC 2 (some "777") (some "d@x.com") none Precedence.primary 1 (some 4) ]

/-- A membership list with two primaries (response-builder scenario). -/
def wdbC8 : List Contact :=
  [ mkC 1 none (some "e@x.com") none Precedence.primary 0 none
  , mkC 2 (some "888") none none Precedence.primary 1 none ]

/-- A soft-deleted primary whose live secondary matches the request
(undefined-ultimate scenario). -/
def wdbC10 : List Contact :=
  [ mkC 1 none (some "f@x.com") none Precedence.primary 0 (some 5)
  , mkC 2 none (some "f@x.com") (some 1) Precedence.secondary 1 none ]

/-! ### Lemmas about the `Set` / `Map` / sort primitives -/

theorem mem_insertUnique {α : Type} [DecidableEq α] (acc : List α) (x y : α) :
    y ∈ insertUnique acc x ↔ y ∈ acc ∨ y = x := by
  unfold insertUnique
  by_cases h : x ∈ acc
  · rw [if_pos h]
    constructor
    · exact Or.inl
    · rintro (hy | rfl)
      · exact hy
      · exact h
  · rw [if_neg h]
    simp [List.mem_append]

theorem mem_foldl_insertUnique {α : Type} [DecidableEq α] (l : List α) (acc : List α) (y : α) :
    y ∈ l.foldl insertUnique acc ↔ y ∈ acc ∨ y ∈ l := by
  induction l generalizing acc with
  | nil => simp
  | cons x xs ih =>
    rw [List.foldl_cons, ih, mem_insertUnique]
    simp [or_assoc]

theorem mem_setDedup {α : Type} [DecidableEq α] (l : List α) (y : α) :
    y ∈ setDedup l ↔ y ∈ l := by
  rw [setDedup, mem_foldl_insertUnique]
  simp

theorem mem_mapSet (m : List Contact) (x c : Contact) :
    c ∈ mapSet m x → c ∈ m ∨ c = x := by
  unfold mapSet
  split
  · intro h
    rcases List.mem_map.1 h with ⟨a, ha, rfl⟩
    by_cases hid : a.id = x.id
    · rw [if_pos hid]; exact Or.inr rfl
    · rw [if_neg hid]; exact Or.inl ha
  · intro h
    rcases List.mem_append.1 h with h | h
    · exact Or.inl h
    · exact Or.inr (List.mem_singleton.1 h)

theorem mem_foldl_mapSet (xs : List Contact) (acc : List Contact) (c : Contact) :
    c ∈ xs.foldl mapSet acc → c ∈ acc ∨ c ∈ xs := by
  induction xs generalizing acc with
  | nil => intro h; exact Or.inl h
  | cons x xs ih =>
    intro h
    rcases ih (mapSet acc x) h with h1 | h1
    · rcases mem_mapSet acc x c h1 with h2 | h2
      · exact Or.inl h2
      · exact Or.inr (h2 ▸ List.mem_cons_self x xs)
    · exact Or.inr (List.mem_cons_of_mem x h1)

theorem dedupById_subset (xs : List Contact) (c : Contact) :
    c ∈ dedupById xs → c ∈ xs := by
  intro h
  rcases mem_foldl_mapSet xs [] c h with h1 | h1
  · cases h1
  · exact h1

theorem mapSet_ids_nodup (m : List Contact) (x : Contact)
    (h : (m.map (fun c => c.id)).Nodup) :
    ((mapSet m x).map (fun c => c.id)).Nodup := by
  unfold mapSet
  split
  · rename_i hany
    have heq : (m.map (fun y => if y.id = x.id then x else y)).map (fun c => c.id)
        = m.map (fun c => c.id) := by
      rw [List.map_map]
      apply List.map_congr_left
      intro a _
      by_cases hid : a.id = x.id
      · simp [hid]
      · simp [hid]
    rw [heq]; exact h
  · rename_i hany
    have hx : x.id ∉ m.map (fun c => c.id) := by
      intro hmem
      rcases List.mem_map.1 hmem with ⟨a, ha, hai⟩
      exact hany (List.any_eq_true.2 ⟨a, ha, by simp [hai]⟩)
    simp only [List.map_append, List.map_cons, List.map_nil]
    exact List.Nodup.append h (List.nodup_singleton _) (by simpa [List.disjoint_singleton] using hx)

theorem foldl_mapSet_ids_nodup (xs : List Contact) (acc : List Contact)
    (h : (acc.map (fun c => c.id)).Nodup) :
    ((xs.foldl mapSet acc).map (fun c => c.id)).Nodup := by
  induction xs generalizing acc with
  | nil => exact h
  | cons x xs ih => exact ih (mapSet acc x) (mapSet_ids_nodup acc x h)

theorem dedupById_ids_nodup (xs : List Contact) :
    ((dedupById xs).map (fun c => c.id)).Nodup := by
  exact foldl_mapSet_ids_nodup xs [] List.nodup_nil

theorem mapSet_mem_of_uniq (m : List Contact) (x : Contact)
    (h : ∀ a ∈ m, a.id = x.id → a = x) :
    (∀ b ∈ m, b ∈ mapSet m x) ∧ x ∈ mapSet m x := by
  unfold mapSet
  split
  · rename_i hany
    have heq : m.map (fun y => if y.id = x.id then x else y) = m := by
      have hpt : ∀ a ∈ m, (if a.id = x.id then x else a) = a := by
        intro a ha
        by_cases hid : a.id = x.id
        · rw [if_pos hid]; exact (h a ha hid).symm
        · rw [if_neg hid]
      rw [List.map_congr_left hpt]
      simp
    rw [heq]
    refine ⟨fun b hb => hb, ?_⟩
    rcases List.any_eq_true.1 hany with ⟨a, ha, hai⟩
    have : a.id = x.id := by simpa using hai
    exact (h a ha this) ▸ ha
  · exact ⟨fun b hb => List.mem_append.2 (Or.inl hb),
      List.mem_append.2 (Or.inr (List.mem_singleton.2 rfl))⟩

theorem foldl_mapSet_mem_of_uniq (xs : List Contact) (acc : List Contact)
    (h : ∀ a, (a ∈ acc ∨ a ∈ xs) → ∀ b, (b ∈ acc ∨ b ∈ xs) → a.id = b.id → a = b) :
    ∀ c, (c ∈ acc ∨ c ∈ xs) → c ∈ xs.foldl mapSet acc := by
  induction xs generalizing acc with
  | nil =>
    intro c hc
    rcases hc with hc | hc
    · exact hc
    · cases hc
  | cons x xs ih =>
    have hsub : ∀ a, (a ∈ mapSet acc x ∨ a ∈ xs) → (a ∈ acc ∨ a ∈ x :: xs) := by
      intro a ha
      rcases ha with ha | ha
      · rcases mem_mapSet acc x a ha with h1 | h1
        · exact Or.inl h1
        · exact Or.inr (h1 ▸ List.mem_cons_self x xs)
      · exact Or.inr (List.mem_cons_of_mem x ha)
    have h' : ∀ a, (a ∈ mapSet acc x ∨ a ∈ xs) → ∀ b, (b ∈ mapSet acc x ∨ b ∈ xs) →
        a.id = b.id → a = b := fun a ha b hb => h a (hsub a ha) b (hsub b hb)
    have hkeep := mapSet_mem_of_uniq acc x
      (fun a ha hai => h a (Or.inl ha) x (Or.inr (List.mem_cons_self x xs)) hai)
    intro c hc
    rcases hc with hc | hc
    · exact ih (mapSet acc x) h' c (Or.inl (hkeep.1 c hc))
    · rcases List.mem_cons.1 hc with hxc | hc
      · subst hxc
        exact ih _ h' _ (Or.inl hkeep.2)
      · exact ih (mapSet acc x) h' c (Or.inr hc)

theorem mem_dedupById_of_uniq (xs : List Contact)
    (h : ∀ a ∈ xs, ∀ b ∈ xs, a.id = b.id → a = b) (c : Contact) (hc : c ∈ xs) :
    c ∈ dedupById xs := by
  apply foldl_mapSet_mem_of_uniq xs []
  · intro a ha b hb hab
    rcases ha with ha | ha
    · cases ha
    · rcases hb with hb | hb
      · cases hb
      · exact h a ha b hb hab
  · exact Or.inr hc

theorem insertByCreated_perm (c : Contact) (l : List Contact) :
    (insertByCreated c l).Perm (c :: l) := by
  induction l with
  | nil => exact List.Perm.refl _
  | cons x xs ih =>
    unfold insertByCreated
    split
    · exact List.Perm.refl _
    · exact ((ih.cons x).trans (List.Perm.swap c x xs))

theorem sortByCreated_perm (l : List Contact) : (sortByCreated l).Perm l := by
  induction l with
  | nil => exact List.Perm.refl _
  | cons x xs ih =>
    have : sortByCreated (x :: xs) = insertByCreated x (sortByCreated xs) := rfl
    rw [this]
    exact (insertByCreated_perm x (sortByCreated xs)).trans (ih.cons x)

theorem insertByCreated_sorted (c : Contact) (l : List Contact)
    (h : List.Pairwise (fun a b => a.createdat ≤ b.createdat) l) :
    List.Pairwise (fun a b => a.createdat ≤ b.createdat) (insertByCreated c l) := by
  induction l with
  | nil => exact List.pairwise_singleton _ _
  | cons x xs ih =>
    unfold insertByCreated
    split
    · rename_i hle
      refine List.pairwise_cons.2 ⟨?_, h⟩
      intro b hb
      rcases List.mem_cons.1 hb with rfl | hb
      · exact hle
      · exact le_trans hle (List.rel_of_pairwise_cons h hb)
    · rename_i hle
      refine List.pairwise_cons.2 ⟨?_, ih (List.Pairwise.of_cons h)⟩
      intro b hb
      have hb' := (insertByCreated_perm c xs).mem_iff.1 hb
      rcases List.mem_cons.1 hb' with rfl | hb'
      · exact le_of_not_le hle
      · exact List.rel_of_pairwise_cons h hb'

theorem sortByCreated_sorted (l : List Contact) :
    List.Pairwise (fun a b => a.createdat ≤ b.createdat) (sortByCreated l) := by
  induction l with
  | nil => exact List.Pairwise.nil
  | cons x xs ih => exact insertByCreated_sorted x (sortByCreated xs) ih

theorem sortByCreated_head_min (l : List Contact) (u : Contact) (rest : List Contact)
    (h : sortByCreated l = u :: rest) :
    ∀ q ∈ sortByCreated l, u.createdat ≤ q.createdat := by
  intro q hq
  have hs := sortByCreated_sorted l
  rw [h] at hs hq
  rcases List.mem_cons.1 hq with rfl | hq
  · exact le_refl _
  · exact List.rel_of_pairwise_cons hs hq

/-! ### Lemmas about id assignment and the demotion loop -/

theorem foldl_max_ge_init (db : List Contact) (a : Nat) :
    a ≤ db.foldl (fun m c => max m c.id) a := by
  induction db generalizing a with
  | nil => exact le_refl _
  | cons x xs ih => exact le_trans (le_max_left a x.id) (ih (max a x.id))

theorem foldl_max_le_of_mem (db : List Contact) (c : Contact) :
    ∀ a : Nat, c ∈ db → c.id ≤ db.foldl (fun m c => max m c.id) a := by
  induction db with
  | nil => intro a hc; cases hc
  | cons x xs ih =>
    intro a hc
    rcases List.mem_cons.1 hc with rfl | hc2
    · exact le_trans (le_max_right a c.id) (foldl_max_ge_init xs (max a c.id))
    · exact ih (max a x.id) hc2

theorem id_lt_nextId (db : List Contact) (c : Contact) (hc : c ∈ db) :
    c.id < nextId db :=
  Nat.lt_succ_of_le (foldl_max_le_of_mem db c 0 hc)

theorem nextId_not_mem (db : List Contact) (c : Contact) (hc : c ∈ db) :
    c.id ≠ nextId db :=
  Nat.ne_of_lt (id_lt_nextId db c hc)

theorem demoteList_nil (uid now : Nat) (c : Contact) :
    demoteList [] uid now c = c := rfl

theorem demoteList_cons (q : Contact) (ts : List Contact) (uid now : Nat) (c : Contact) :
    demoteList (q :: ts) uid now c = demoteList ts uid now (demoteStep uid q.id now c) := rfl

theorem demoteAll_eq_map (td : List Contact) (db : List Contact) (uid now : Nat) :
    demoteAll db td uid now = db.map (demoteList td uid now) := by
  induction td generalizing db with
  | nil =>
    show db = db.map (demoteList [] uid now)
    have h1 : ∀ a ∈ db, demoteList [] uid now a = id a := fun a _ => rfl
    exact ((List.map_congr_left h1).trans (List.map_id db)).symm
  | cons q ts ih =>
    have hstep :
        updateSecondaryLinks (updateContact db q.id (some uid) Precedence.secondary now) q.id uid now
          = db.map (demoteStep uid q.id now) := by
      simp only [updateContact, updateSecondaryLinks, List.map_map]
      rfl
    have h1 : demoteAll db (q :: ts) uid now
        = demoteAll (db.map (demoteStep uid q.id now)) ts uid now := by
      simp only [demoteAll, List.foldl_cons, hstep]
    rw [h1, ih, List.map_map]
    rfl

theorem demoteSelf_fields (uid qid now : Nat) (c : Contact) :
    (demoteSelf uid qid now c).id = c.id ∧
    (demoteSelf uid qid now c).email = c.email ∧
    (demoteSelf uid qid now c).phonenumber = c.phonenumber ∧
    (demoteSelf uid qid now c).createdat = c.createdat ∧
    (demoteSelf uid qid now c).deletedat = c.deletedat := by
  unfold demoteSelf
  split <;> exact ⟨rfl, rfl, rfl, rfl, rfl⟩

theorem relinkStep_fields (uid qid now : Nat) (c : Contact) :
    (relinkStep uid qid now c).id = c.id ∧
    (relinkStep uid qid now c).email = c.email ∧
    (relinkStep uid qid now c).phonenumber = c.phonenumber ∧
    (relinkStep uid qid now c).createdat = c.createdat ∧
    (relinkStep uid qid now c).deletedat = c.deletedat := by
  unfold relinkStep
  split <;> exact ⟨rfl, rfl, rfl, rfl, rfl⟩

theorem demoteStep_fields (uid qid now : Nat) (c : Contact) :
    (demoteStep uid qid now c).id = c.id ∧
    (demoteStep uid qid now c).email = c.email ∧
    (demoteStep uid qid now c).phonenumber = c.phonenumber ∧
    (demoteStep uid qid now c).createdat = c.createdat ∧
    (demoteStep uid qid now c).deletedat = c.deletedat := by
  have h1 := relinkStep_fields uid qid now (demoteSelf uid qid now c)
  have h2 := demoteSelf_fields uid qid now c
  exact ⟨h1.1.trans h2.1, h1.2.1.trans h2.2.1, h1.2.2.1.trans h2.2.2.1,
    h1.2.2.2.1.trans h2.2.2.2.1, h1.2.2.2.2.trans h2.2.2.2.2⟩

theorem demoteList_fields (td : List Contact) (uid now : Nat) (c : Contact) :
    (demoteList td uid now c).id = c.id ∧
    (demoteList td uid now c).email = c.email ∧
    (demoteList td uid now c).phonenumber = c.phonenumber ∧
    (demoteList td uid now c).createdat = c.createdat ∧
    (demoteList td uid now c).deletedat = c.deletedat := by
  induction td generalizing c with
  | nil => exact ⟨rfl, rfl, rfl, rfl, rfl⟩
  | cons q ts ih =>
    rw [demoteList_cons]
    have h1 := ih (demoteStep uid q.id now c)
    have h2 := demoteStep_fields uid q.id now c
    exact ⟨h1.1.trans h2.1, h1.2.1.trans h2.2.1, h1.2.2.1.trans h2.2.2.1,
      h1.2.2.2.1.trans h2.2.2.2.1, h1.2.2.2.2.trans h2.2.2.2.2⟩

theorem demoteStep_untouched (uid qid now : Nat) (c : Contact)
    (h1 : c.id ≠ qid) (h2 : c.linkedid ≠ some qid) :
    demoteStep uid qid now c = c := by
  unfold demoteStep demoteSelf relinkStep
  rw [if_neg h1, if_neg h2]

theorem demoteList_untouched (td : List Contact) (uid now : Nat) (c : Contact)
    (h1 : ∀ q ∈ td, c.id ≠ q.id) (h2 : ∀ q ∈ td, c.linkedid ≠ some q.id) :
    demoteList td uid now c = c := by
  induction td with
  | nil => rfl
  | cons q ts ih =>
    rw [demoteList_cons,
      demoteStep_untouched uid q.id now c (h1 q (List.mem_cons_self q ts))
        (h2 q (List.mem_cons_self q ts))]
    exact ih (fun q' hq' => h1 q' (List.mem_cons_of_mem q hq'))
      (fun q' hq' => h2 q' (List.mem_cons_of_mem q hq'))

theorem demoteList_demoted (td : List Contact) (uid now : Nat) (c : Contact)
    (hnd : (td.map (fun q => q.id)).Nodup) (hu : uid ∉ td.map (fun q => q.id))
    (hc : c.id ∈ td.map (fun q => q.id)) (hl : c.linkedid = none) :
    demoteList td uid now c =
      { c with linkedid := some uid, linkprecedence := Precedence.secondary, updateat := now } := by
  induction td with
  | nil => cases hc
  | cons q ts ih =>
    rw [List.map_cons, List.nodup_cons] at hnd
    rw [List.map_cons, List.mem_cons] at hu
    push_neg at hu
    rw [List.map_cons, List.mem_cons] at hc
    rw [demoteList_cons]
    rcases hc with hc | hc
    · have huq : ¬ (some uid = some q.id) := by
        intro hs
        exact hu.1 (Option.some_injective _ hs)
      have hstep : demoteStep uid q.id now c =
          { c with linkedid := some uid, linkprecedence := Precedence.secondary, updateat := now } := by
        unfold demoteStep demoteSelf relinkStep
        rw [if_pos hc]
        dsimp only
        rw [if_neg huq]
      rw [hstep]
      apply demoteList_untouched
      · intro q' hq' hqq
        apply hnd.1
        rw [hc] at hqq
        exact List.mem_map.2 ⟨q', hq', hqq.symm⟩
      · intro q' hq' hs
        apply hu.2
        have : uid = q'.id := by
          have := Option.some_injective Nat hs
          simpa using this
        rw [this]
        exact List.mem_map.2 ⟨q', hq', rfl⟩
    · have hne : c.id ≠ q.id := by
        intro hqq
        exact hnd.1 (hqq ▸ hc)
      have hl2 : c.linkedid ≠ some q.id := by
        rw [hl]
        exact fun h => Option.noConfusion h
      rw [demoteStep_untouched uid q.id now c hne hl2]
      exact ih hnd.2 hu.2 hc

theorem demoteList_repointed (td : List Contact) (uid now : Nat) (c : Contact) (x : Nat)
    (hnd : (td.map (fun q => q.id)).Nodup) (hu : uid ∉ td.map (fun q => q.id))
    (hcid : c.id ∉ td.map (fun q => q.id)) (hx : c.linkedid = some x)
    (hxmem : x ∈ td.map (fun q => q.id)) :
    demoteList td uid now c = { c with linkedid := some uid, updateat := now } := by
  induction td with
  | nil => cases hxmem
  | cons q ts ih =>
    rw [List.map_cons, List.nodup_cons] at hnd
    rw [List.map_cons, List.mem_cons] at hu hcid hxmem
    push_neg at hu hcid
    rw [demoteList_cons]
    rcases hxmem with hxq | hxts
    · have hstep : demoteStep uid q.id now c =
          { c with linkedid := some uid, updateat := now } := by
        unfold demoteStep demoteSelf relinkStep
        rw [if_neg hcid.1]
        rw [if_pos (by rw [hx, hxq])]
      rw [hstep]
      apply demoteList_untouched
      · intro q' hq' hqq
        exact hcid.2 (hqq ▸ List.mem_map.2 ⟨q', hq', rfl⟩)
      · intro q' hq' hs
        apply hu.2
        have huq : uid = q'.id := by simpa using Option.some_injective Nat hs
        rw [huq]
        exact List.mem_map.2 ⟨q', hq', rfl⟩
    · have hl2 : c.linkedid ≠ some q.id := by
        rw [hx]
        intro hs
        have hxq : x = q.id := by simpa using Option.some_injective Nat hs
        exact hnd.1 (hxq ▸ hxts)
      rw [demoteStep_untouched uid q.id now c hcid.1 hl2]
      exact ih hnd.2 hu.2 hcid.2 hxts

theorem demoteStep_linkedid_cases (uid qid now : Nat) (c : Contact) :
    (demoteStep uid qid now c).linkedid = some uid ∨
    (demoteStep uid qid now c).linkedid = c.linkedid := by
  unfold demoteStep demoteSelf relinkStep
  by_cases h1 : c.id = qid
  · rw [if_pos h1]
    dsimp only
    split
    · exact Or.inl rfl
    · exact Or.inl rfl
  · rw [if_neg h1]
    split
    · exact Or.inl rfl
    · exact Or.inr rfl

theorem demoteList_linkedid_cases (td : List Contact) (uid now : Nat) (c : Contact) :
    (demoteList td uid now c).linkedid = some uid ∨
    (demoteList td uid now c).linkedid = c.linkedid := by
  induction td generalizing c with
  | nil => exact Or.inr rfl
  | cons q ts ih =>
    rw [demoteList_cons]
    rcases ih (demoteStep uid q.id now c) with h | h
    · exact Or.inl h
    · rcases demoteStep_linkedid_cases uid q.id now c with h2 | h2
      · exact Or.inl (h.trans h2)
      · exact Or.inr (h.trans h2)

theorem demoteStep_linkedid_ne (uid qid now : Nat) (c : Contact) (huq : uid ≠ qid) :
    (demoteStep uid qid now c).linkedid ≠ some qid := by
  unfold demoteStep demoteSelf relinkStep
  by_cases h1 : c.id = qid
  · rw [if_pos h1]
    dsimp only
    split
    · intro hs
      exact huq (by simpa using Option.some_injective Nat hs)
    · intro hs
      exact huq (by simpa using Option.some_injective Nat hs)
  · rw [if_neg h1]
    split
    · intro hs
      exact huq (by simpa using Option.some_injective Nat hs)
    · rename_i hcond
      exact hcond

theorem demoteList_no_demoted_link (td : List Contact) (uid now : Nat) (c : Contact)
    (hu : uid ∉ td.map (fun q => q.id)) :
    ∀ q ∈ td, (demoteList td uid now c).linkedid ≠ some q.id := by
  induction td generalizing c with
  | nil => intro q hq; cases hq
  | cons t ts ih =>
    rw [List.map_cons, List.mem_cons] at hu
    push_neg at hu
    intro q hq
    rw [demoteList_cons]
    rcases List.mem_cons.1 hq with rfl | hq2
    · rcases demoteList_linkedid_cases ts uid now (demoteStep uid q.id now c) with h | h
      · rw [h]
        intro hs
        exact hu.1 (by simpa using Option.some_injective Nat hs)
      · rw [h]
        exact demoteStep_linkedid_ne uid q.id now c hu.1
    · exact ih (demoteStep uid t.id now c) hu.2 q hq2

theorem demoteSelf_prec_primary (uid qid now : Nat) (c : Contact)
    (h : (demoteSelf uid qid now c).linkprecedence = Precedence.primary) :
    c.linkprecedence = Precedence.primary := by
  unfold demoteSelf at h
  by_cases h1 : c.id = qid
  · rw [if_pos h1] at h
    cases h
  · rw [if_neg h1] at h
    exact h

theorem relinkStep_prec (uid qid now : Nat) (c : Contact) :
    (relinkStep uid qid now c).linkprecedence = c.linkprecedence := by
  unfold relinkStep
  split <;> rfl

theorem demoteStep_prec_primary (uid qid now : Nat) (c : Contact)
    (h : (demoteStep uid qid now c).linkprecedence = Precedence.primary) :
    c.linkprecedence = Precedence.primary := by
  unfold demoteStep at h
  rw [relinkStep_prec] at h
  exact demoteSelf_prec_primary uid qid now c h

theorem demoteList_prec_primary (td : List Contact) (uid now : Nat) (c : Contact)
    (h : (demoteList td uid now c).linkprecedence = Precedence.primary) :
    c.linkprecedence = Precedence.primary := by
  induction td generalizing c with
  | nil => exact h
  | cons q ts ih =>
    rw [demoteList_cons] at h
    exact demoteStep_prec_primary uid q.id now c (ih (demoteStep uid q.id now c) h)

theorem demoteStep_prec_of_ne (uid qid now : Nat) (c : Contact) (h : c.id ≠ qid) :
    (demoteStep uid qid now c).linkprecedence = c.linkprecedence := by
  unfold demoteStep demoteSelf
  rw [if_neg h, relinkStep_prec]

theorem demoteList_prec_of_not_mem (td : List Contact) (uid now : Nat) (c : Contact)
    (h : ∀ q ∈ td, c.id ≠ q.id) :
    (demoteList td uid now c).linkprecedence = c.linkprecedence := by
  induction td generalizing c with
  | nil => rfl
  | cons q ts ih =>
    rw [demoteList_cons]
    have hid : (demoteStep uid q.id now c).id = c.id := (demoteStep_fields uid q.id now c).1
    have := ih (demoteStep uid q.id now c)
      (fun q' hq' => hid ▸ h q' (List.mem_cons_of_mem q hq'))
    rw [this, demoteStep_prec_of_ne uid q.id now c (h q (List.mem_cons_self q ts))]

/-! ### Structural lemmas about the resolver reads -/

theorem seed_mem (db : List Contact) (e p : Option String) (c : Contact)
    (hc : c ∈ findContactsByEmailOrPhone db e p) :
    c ∈ db ∧ matchesRequest e p c = true ∧ c.deletedat = none := by
  unfold findContactsByEmailOrPhone at hc
  split at hc
  · cases hc
  · rw [List.mem_filter] at hc
    rcases hc with ⟨hdb, hcond⟩
    rw [Bool.and_eq_true, decide_eq_true_eq] at hcond
    exact ⟨hdb, hcond.1, hcond.2⟩

theorem mem_seed_of (db : List Contact) (e p : Option String) (c : Contact)
    (hne : ¬(e = none ∧ p = none)) (hdb : c ∈ db)
    (hm : matchesRequest e p c = true) (hl : c.deletedat = none) :
    c ∈ findContactsByEmailOrPhone db e p := by
  unfold findContactsByEmailOrPhone
  rw [if_neg hne, List.mem_filter]
  exact ⟨hdb, by rw [Bool.and_eq_true, decide_eq_true_eq]; exact ⟨hm, hl⟩⟩

theorem mem_pidStep (acc : List Nat) (c : Contact) (l : Nat) :
    l ∈ pidStep acc c ↔ l ∈ acc ∨
      ((c.linkprecedence = Precedence.primary ∧ c.id = l) ∨
       (c.linkprecedence ≠ Precedence.primary ∧ c.linkedid = some l ∧ l ≠ 0)) := by
  unfold pidStep
  by_cases hp : c.linkprecedence = Precedence.primary
  · rw [if_pos hp, mem_insertUnique]
    simp [hp, eq_comm]
  · rw [if_neg hp]
    cases hl : c.linkedid with
    | none => simp [hp, hl]
    | some x =>
      dsimp only
      by_cases hx : x ≠ 0
      · rw [if_pos hx, mem_insertUnique]
        simp only [hp, hl, Option.some.injEq, ne_eq, false_and, false_or, not_false_eq_true,
          true_and]
        constructor
        · rintro (h | rfl)
          · exact Or.inl h
          · exact Or.inr ⟨rfl, hx⟩
        · rintro (h | ⟨rfl, h2⟩)
          · exact Or.inl h
          · exact Or.inr rfl
      · rw [if_neg hx]
        push_neg at hx
        subst hx
        simp only [hp, hl, Option.some.injEq, ne_eq, false_and, false_or, not_false_eq_true,
          true_and]
        constructor
        · exact Or.inl
        · rintro (h | ⟨rfl, h2⟩)
          · exact h
          · exact absurd rfl h2

theorem mem_foldl_pidStep (cs : List Contact) (acc : List Nat) (l : Nat) :
    l ∈ cs.foldl pidStep acc ↔ l ∈ acc ∨
      ∃ c ∈ cs, ((c.linkprecedence = Precedence.primary ∧ c.id = l) ∨
        (c.linkprecedence ≠ Precedence.primary ∧ c.linkedid = some l ∧ l ≠ 0)) := by
  induction cs generalizing acc with
  | nil => simp
  | cons x xs ih =>
    rw [List.foldl_cons, ih, mem_pidStep]
    constructor
    · rintro ((h | h) | ⟨c, hc, h⟩)
      · exact Or.inl h
      · exact Or.inr ⟨x, List.mem_cons_self x xs, h⟩
      · exact Or.inr ⟨c, List.mem_cons_of_mem x hc, h⟩
    · rintro (h | ⟨c, hc, h⟩)
      · exact Or.inl (Or.inl h)
      · rcases List.mem_cons.1 hc with rfl | hc2
        · exact Or.inl (Or.inr h)
        · exact Or.inr ⟨c, hc2, h⟩

theorem mem_primaryIds_iff (cs : List Contact) (l : Nat) :
    l ∈ primaryIds cs ↔
      ∃ c ∈ cs, ((c.linkprecedence = Precedence.primary ∧ c.id = l) ∨
        (c.linkprecedence ≠ Precedence.primary ∧ c.linkedid = some l ∧ l ≠ 0)) := by
  rw [primaryIds, mem_foldl_pidStep]
  simp

theorem primariesFromDb_mem (db : List Contact) (pids : List Nat) (c : Contact)
    (h : c ∈ primariesFromDb db pids) :
    c ∈ db ∧ c.id ∈ pids ∧ c.deletedat = none := by
  unfold primariesFromDb at h
  split at h
  · cases h
  · rw [List.mem_filter] at h
    rcases h with ⟨hdb, hcond⟩
    rw [Bool.and_eq_true, decide_eq_true_eq, decide_eq_true_eq] at hcond
    exact ⟨hdb, hcond.1, hcond.2⟩

theorem mem_primariesFromDb_of (db : List Contact) (pids : List Nat) (c : Contact)
    (hdb : c ∈ db) (hid : c.id ∈ pids) (hl : c.deletedat = none) :
    c ∈ primariesFromDb db pids := by
  unfold primariesFromDb
  split
  · rename_i hemp
    rw [List.isEmpty_iff] at hemp
    rw [hemp] at hid
    cases hid
  · rw [List.mem_filter]
    exact ⟨hdb, by rw [Bool.and_eq_true, decide_eq_true_eq, decide_eq_true_eq]; exact ⟨hid, hl⟩⟩

theorem db_uniq (db : List Contact) (hnd : (db.map (fun c => c.id)).Nodup) :
    ∀ a ∈ db, ∀ b ∈ db, a.id = b.id → a = b := by
  intro a ha b hb hab
  exact List.inj_on_of_nodup_map hnd ha hb hab

theorem candidateContacts_mem (db : List Contact) (e p : Option String) (c : Contact)
    (hc : c ∈ candidateContacts db e p) :
    c ∈ db ∧ c.deletedat = none := by
  unfold candidateContacts at hc
  have h1 := dedupById_subset _ c hc
  rcases List.mem_append.1 h1 with h2 | h2
  · have := seed_mem db e p c h2
    exact ⟨this.1, this.2.2⟩
  · have := primariesFromDb_mem db _ c h2
    exact ⟨this.1, this.2.2⟩

theorem combined_uniq (db : List Contact) (e p : Option String)
    (hnd : (db.map (fun c => c.id)).Nodup) :
    ∀ a ∈ (findContactsByEmailOrPhone db e p ++
        primariesFromDb db (primaryIds (findContactsByEmailOrPhone db e p))),
      ∀ b ∈ (findContactsByEmailOrPhone db e p ++
        primariesFromDb db (primaryIds (findContactsByEmailOrPhone db e p))),
      a.id = b.id → a = b := by
  intro a ha b hb hab
  have hadb : a ∈ db := by
    rcases List.mem_append.1 ha with h | h
    · exact (seed_mem db e p a h).1
    · exact (primariesFromDb_mem db _ a h).1
  have hbdb : b ∈ db := by
    rcases List.mem_append.1 hb with h | h
    · exact (seed_mem db e p b h).1
    · exact (primariesFromDb_mem db _ b h).1
  exact db_uniq db hnd a hadb b hbdb hab

theorem mem_candidateContacts_of_seed (db : List Contact) (e p : Option String)
    (hnd : (db.map (fun c => c.id)).Nodup) (c : Contact)
    (hc : c ∈ findContactsByEmailOrPhone db e p) :
    c ∈ candidateContacts db e p := by
  unfold candidateContacts
  exact mem_dedupById_of_uniq _ (combined_uniq db e p hnd) c (List.mem_append.2 (Or.inl hc))

theorem mem_candidateContacts_of_fetched (db : List Contact) (e p : Option String)
    (hnd : (db.map (fun c => c.id)).Nodup) (c : Contact)
    (hc : c ∈ primariesFromDb db (primaryIds (findContactsByEmailOrPhone db e p))) :
    c ∈ candidateContacts db e p := by
  unfold candidateContacts
  exact mem_dedupById_of_uniq _ (combined_uniq db e p hnd) c (List.mem_append.2 (Or.inr hc))

theorem candidatePrimaries_mem (db : List Contact) (e p : Option String) (q : Contact)
    (hq : q ∈ candidatePrimaries db e p) :
    q ∈ candidateContacts db e p ∧ q.linkprecedence = Precedence.primary := by
  unfold candidatePrimaries at hq
  have := (sortByCreated_perm _).mem_iff.1 hq
  rw [List.mem_filter, decide_eq_true_eq] at this
  exact this

theorem mem_candidatePrimaries_of (db : List Contact) (e p : Option String) (q : Contact)
    (hq : q ∈ candidateContacts db e p) (hp : q.linkprecedence = Precedence.primary) :
    q ∈ candidatePrimaries db e p := by
  unfold candidatePrimaries
  apply (sortByCreated_perm _).mem_iff.2
  rw [List.mem_filter, decide_eq_true_eq]
  exact ⟨hq, hp⟩

theorem candidatePrimaries_ids_nodup (db : List Contact) (e p : Option String) :
    ((candidatePrimaries db e p).map (fun c => c.id)).Nodup := by
  have h1 : ((candidateContacts db e p).map (fun c => c.id)).Nodup := by
    unfold candidateContacts
    exact dedupById_ids_nodup _
  have h2 :
      (((candidateContacts db e p).filter
        (fun c => decide (c.linkprecedence = Precedence.primary))).map (fun c => c.id)).Nodup :=
    List.Nodup.sublist (List.Sublist.map _ (List.filter_sublist _)) h1
  exact (((sortByCreated_perm _).map (fun c => c.id)).symm).nodup h2

theorem seed_nil_candidatePrimaries (db : List Contact) (e p : Option String)
    (h : findContactsByEmailOrPhone db e p = []) :
    candidatePrimaries db e p = [] := by
  unfold candidatePrimaries candidateContacts
  rw [h]
  rfl

theorem mem_getAllEmails (cs : List Contact) (s : String) :
    s ∈ getAllEmails cs ↔ ∃ c ∈ cs, c.email = some s := by
  rw [getAllEmails, mem_setDedup, List.mem_filterMap]

theorem mem_getAllPhones (cs : List Contact) (s : String) :
    s ∈ getAllPhones cs ↔ ∃ c ∈ cs, c.phonenumber = some s := by
  rw [getAllPhones, mem_setDedup, List.mem_filterMap]

theorem mem_getAllContactsLinkedToPrimary (db : List Contact) (pid : Nat) (c : Contact) :
    c ∈ getAllContactsLinkedToPrimary db pid ↔
      c ∈ db ∧ (c.id = pid ∨ c.linkedid = some pid) ∧ c.deletedat = none := by
  unfold getAllContactsLinkedToPrimary
  rw [List.mem_filter, Bool.and_eq_true, Bool.or_eq_true, decide_eq_true_eq,
    decide_eq_true_eq, decide_eq_true_eq]

theorem buildResponse_eq_none_iff (cs : List Contact) :
    buildResponse cs = none ↔ ∀ c ∈ cs, c.linkprecedence ≠ Precedence.primary := by
  unfold buildResponse
  cases h : cs.find? (fun c => decide (c.linkprecedence = Precedence.primary)) with
  | none =>
    rw [List.find?_eq_none] at h
    constructor
    · intro _ c hc hp
      have := h c hc
      rw [decide_eq_true_eq] at this
      exact this hp
    · intro _
      rfl
  | some pr =>
    have hpr := List.find?_some h
    have hmem := List.mem_of_find?_eq_some h
    rw [decide_eq_true_eq] at hpr
    constructor
    · intro hb
      cases hb
    · intro hall
      exact absurd hpr (hall pr hmem)

theorem identify_matched (db : List Contact) (e p : Option String) (now : Nat)
    (u : Contact) (td : List Contact)
    (hseed : findContactsByEmailOrPhone db e p ≠ [])
    (hprims : candidatePrimaries db e p = u :: td) :
    identify db e p now =
      (dbAfterWrites db e p now u td,
       buildResponse (getAllContactsLinkedToPrimary (dbAfterWrites db e p now u td) u.id)) := by
  have hne : ¬((findContactsByEmailOrPhone db e p).isEmpty = true) := by
    rw [List.isEmpty_iff]
    exact hseed
  unfold identify
  rw [if_neg hne, hprims]

theorem identify_nomatch (db : List Contact) (e p : Option String) (now : Nat)
    (h : findContactsByEmailOrPhone db e p = []) :
    identify db e p now =
      ((createContact db e p none Precedence.primary now).1,
       some
         { primaryContactId := (createContact db e p none Precedence.primary now).2.id
         , emails := (createContact db e p none Precedence.primary now).2.email.toList
         , phoneNumbers := (createContact db e p none Precedence.primary now).2.phonenumber.toList
         , secondaryContactIds := [] }) := by
  have hemp : (findContactsByEmailOrPhone db e p).isEmpty = true := by
    rw [List.isEmpty_iff]
    exact h
  unfold identify
  rw [if_pos hemp]

theorem identify_crash (db : List Contact) (e p : Option String) (now : Nat)
    (hseed : findContactsByEmailOrPhone db e p ≠ [])
    (hprims : candidatePrimaries db e p = []) :
    identify db e p now = (db, none) := by
  have hne : ¬((findContactsByEmailOrPhone db e p).isEmpty = true) := by
    rw [List.isEmpty_iff]
    exact hseed
  unfold identify
  rw [if_neg hne, hprims]

/-! ### Lemmas about the matched path as a whole -/

theorem candidatePrimaries_seed_ne (db : List Contact) (e p : Option String)
    (u : Contact) (td : List Contact)
    (hprims : candidatePrimaries db e p = u :: td) :
    findContactsByEmailOrPhone db e p ≠ [] := by
  intro h
  rw [seed_nil_candidatePrimaries db e p h] at hprims
  cases hprims

theorem prims_props (db : List Contact) (e p : Option String) (hwf : WellFormed db)
    (q : Contact) (hq : q ∈ candidatePrimaries db e p) :
    q ∈ db ∧ q.deletedat = none ∧ q.linkprecedence = Precedence.primary ∧ q.linkedid = none := by
  have h1 := candidatePrimaries_mem db e p q hq
  have h2 := candidateContacts_mem db e p q h1.1
  exact ⟨h2.1, h2.2, h1.2, hwf.2.2.1 q h2.1 h1.2⟩

theorem prims_cons_ids (db : List Contact) (e p : Option String)
    (u : Contact) (td : List Contact)
    (hprims : candidatePrimaries db e p = u :: td) :
    u.id ∉ td.map (fun q => q.id) ∧ (td.map (fun q => q.id)).Nodup := by
  have := candidatePrimaries_ids_nodup db e p
  rw [hprims, List.map_cons, List.nodup_cons] at this
  exact this

theorem demoteAll_mem_image (db td : List Contact) (uid now : Nat) (c : Contact)
    (hc : c ∈ db) : demoteList td uid now c ∈ demoteAll db td uid now := by
  rw [demoteAll_eq_map]
  exact List.mem_map.2 ⟨c, hc, rfl⟩

theorem demoteAll_mem_rev (db td : List Contact) (uid now : Nat) (r : Contact)
    (h : r ∈ demoteAll db td uid now) : ∃ c ∈ db, r = demoteList td uid now c := by
  rw [demoteAll_eq_map] at h
  rcases List.mem_map.1 h with ⟨c, hc, hr⟩
  exact ⟨c, hc, hr.symm⟩

theorem createContact_fst (db : List Contact) (e p : Option String)
    (lk : Option Nat) (pr : Precedence) (now : Nat) :
    (createContact db e p lk pr now).1 = db ++ [(createContact db e p lk pr now).2] := rfl

theorem createContact_snd (db : List Contact) (e p : Option String)
    (lk : Option Nat) (pr : Precedence) (now : Nat) :
    (createContact db e p lk pr now).2 =
      { id := nextId db, phonenumber := p, email := e, linkedid := lk,
        linkprecedence := pr, createdat := now, updateat := now, deletedat := none } := rfl

theorem u_fixed (db : List Contact) (e p : Option String) (now : Nat)
    (hwf : WellFormed db) (u : Contact) (td : List Contact)
    (hprims : candidatePrimaries db e p = u :: td) :
    demoteList td u.id now u = u := by
  have hids := prims_cons_ids db e p u td hprims
  have hu := prims_props db e p hwf u (hprims ▸ List.mem_cons_self u td)
  apply demoteList_untouched
  · intro q hq hqq
    exact hids.1 (hqq ▸ List.mem_map.2 ⟨q, hq, rfl⟩)
  · intro q hq
    rw [hu.2.2.2]
    exact fun h => Option.noConfusion h

theorem mem_dbAfterWrites_cases (db : List Contact) (e p : Option String) (now : Nat)
    (u : Contact) (td : List Contact) (r : Contact)
    (hr : r ∈ dbAfterWrites db e p now u td) :
    r ∈ demoteAll db td u.id now ∨
      r = (createContact (demoteAll db td u.id now)
        (if isNewEmail db e p then e else none)
        (if isNewPhone db e p then p else none)
        (some u.id) Precedence.secondary now).2 := by
  unfold dbAfterWrites at hr
  split at hr
  · rw [createContact_fst] at hr
    rcases List.mem_append.1 hr with h | h
    · exact Or.inl h
    · exact Or.inr (List.mem_singleton.1 h)
  · exact Or.inl hr

theorem db2_subset_dbAfterWrites (db : List Contact) (e p : Option String) (now : Nat)
    (u : Contact) (td : List Contact) (r : Contact)
    (hr : r ∈ demoteAll db td u.id now) :
    r ∈ dbAfterWrites db e p now u td := by
  unfold dbAfterWrites
  split
  · rw [createContact_fst]
    exact List.mem_append.2 (Or.inl hr)
  · exact hr

theorem dbAfterWrites_prim_nolink (db : List Contact) (e p : Option String) (now : Nat)
    (hwf : WellFormed db) (u : Contact) (td : List Contact)
    (hprims : candidatePrimaries db e p = u :: td) :
    ∀ r ∈ dbAfterWrites db e p now u td,
      r.linkprecedence = Precedence.primary → r.linkedid = none := by
  have hids := prims_cons_ids db e p u td hprims
  intro r hr hp
  rcases mem_dbAfterWrites_cases db e p now u td r hr with h | h
  · rcases demoteAll_mem_rev db td u.id now r h with ⟨x, hx, rfl⟩
    have hxp : x.linkprecedence = Precedence.primary := demoteList_prec_primary td u.id now x hp
    have hxl : x.linkedid = none := hwf.2.2.1 x hx hxp
    by_cases hmem : x.id ∈ td.map (fun q => q.id)
    · rw [demoteList_demoted td u.id now x hids.2 hids.1 hmem hxl] at hp
      cases hp
    · rw [demoteList_untouched td u.id now x
        (fun q hq hqq => hmem (hqq ▸ List.mem_map.2 ⟨q, hq, rfl⟩))
        (fun q hq => by rw [hxl]; exact fun hh => Option.noConfusion hh)]
      exact hxl
  · rw [h, createContact_snd] at hp
    cases hp

theorem final_primary_id (db : List Contact) (e p : Option String) (now : Nat)
    (hwf : WellFormed db) (u : Contact) (td : List Contact)
    (hprims : candidatePrimaries db e p = u :: td) :
    ∀ r ∈ getAllContactsLinkedToPrimary (dbAfterWrites db e p now u td) u.id,
      r.linkprecedence = Precedence.primary → r.id = u.id := by
  intro r hr hp
  rw [mem_getAllContactsLinkedToPrimary] at hr
  rcases hr.2.1 with h | h
  · exact h
  · rw [dbAfterWrites_prim_nolink db e p now hwf u td hprims r hr.1 hp] at h
    cases h

theorem u_mem_final (db : List Contact) (e p : Option String) (now : Nat)
    (hwf : WellFormed db) (u : Contact) (td : List Contact)
    (hprims : candidatePrimaries db e p = u :: td) :
    u ∈ getAllContactsLinkedToPrimary (dbAfterWrites db e p now u td) u.id := by
  have hu := prims_props db e p hwf u (hprims ▸ List.mem_cons_self u td)
  rw [mem_getAllContactsLinkedToPrimary]
  refine ⟨?_, Or.inl rfl, hu.2.1⟩
  apply db2_subset_dbAfterWrites
  have himg := demoteAll_mem_image db td u.id now u hu.1
  rw [u_fixed db e p now hwf u td hprims] at himg
  exact himg

theorem candidatePrimaries_head_min (db : List Contact) (e p : Option String)
    (u : Contact) (td : List Contact)
    (hprims : candidatePrimaries db e p = u :: td) :
    ∀ q ∈ candidatePrimaries db e p, u.createdat ≤ q.createdat := by
  unfold candidatePrimaries at hprims ⊢
  exact sortByCreated_head_min _ u td hprims

/-! ### Claim theorems -/

/-- C1: for a request whose matching contacts span two or more existing
primary contacts, the handler's ultimate primary (head of the sorted
candidate-primary list) has the earliest `createdat` among the involved
primaries; every other involved primary ends demoted to secondary with its
`linkedid` set to the ultimate primary's id; and the response returns the
ultimate primary's id as `primaryContactId` with every demoted primary's id
in `secondaryContactIds`. -/
theorem c1_merge_precedence (db : List Contact) (e p : Option String) (now : Nat)
    (u : Contact) (td : List Contact)
    (hwf : WellFormed db)
    (hprims : candidatePrimaries db e p = u :: td)
    (_hne : td ≠ []) :
    (∀ q ∈ candidatePrimaries db e p, u.createdat ≤ q.createdat) ∧
    (∀ q ∈ td, ∃ c ∈ (identify db e p now).1,
       c.id = q.id ∧ c.linkprecedence = Precedence.secondary ∧ c.linkedid = some u.id) ∧
    (∃ resp, (identify db e p now).2 = some resp ∧
       resp.primaryContactId = u.id ∧ ∀ q ∈ td, q.id ∈ resp.secondaryContactIds) := by
  have hseed := candidatePrimaries_seed_ne db e p u td hprims
  have hid := identify_matched db e p now u td hseed hprims
  have hids := prims_cons_ids db e p u td hprims
  have hu := prims_props db e p hwf u (hprims ▸ List.mem_cons_self u td)
  have hufin := u_mem_final db e p now hwf u td hprims
  rw [hid]
  dsimp only
  refine ⟨candidatePrimaries_head_min db e p u td hprims, ?_, ?_⟩
  · intro q hq
    have hq' : q ∈ candidatePrimaries db e p := by
      rw [hprims]
      exact List.mem_cons_of_mem u hq
    have hqp := prims_props db e p hwf q hq'
    have hqid : q.id ∈ td.map (fun q => q.id) := List.mem_map.2 ⟨q, hq, rfl⟩
    have hdem := demoteList_demoted td u.id now q hids.2 hids.1 hqid hqp.2.2.2
    have hcin : demoteList td u.id now q ∈ dbAfterWrites db e p now u td :=
      db2_subset_dbAfterWrites db e p now u td _ (demoteAll_mem_image db td u.id now q hqp.1)
    rw [hdem] at hcin
    exact ⟨_, hcin, rfl, rfl, rfl⟩
  · cases hfind : (getAllContactsLinkedToPrimary (dbAfterWrites db e p now u td) u.id).find?
        (fun c => decide (c.linkprecedence = Precedence.primary)) with
    | none =>
      exfalso
      have hn := List.find?_eq_none.1 hfind u hufin
      rw [decide_eq_true_eq] at hn
      exact hn hu.2.2.1
    | some pr =>
      have hpr : pr.linkprecedence = Precedence.primary := by
        have := List.find?_some hfind
        rwa [decide_eq_true_eq] at this
      have hprmem := List.mem_of_find?_eq_some hfind
      have hprid : pr.id = u.id :=
        final_primary_id db e p now hwf u td hprims pr hprmem hpr
      refine ⟨{ primaryContactId := pr.id
              , emails := getAllEmails (getAllContactsLinkedToPrimary (dbAfterWrites db e p now u td) u.id)
              , phoneNumbers := getAllPhones (getAllContactsLinkedToPrimary (dbAfterWrites db e p now u td) u.id)
              , secondaryContactIds :=
                  ((getAllContactsLinkedToPrimary (dbAfterWrites db e p now u td) u.id).filter
                    (fun c => decide (c.linkprecedence = Precedence.secondary))).map (fun c => c.id) },
            ?_, hprid, ?_⟩
      · show buildResponse _ = some _
        unfold buildResponse
        rw [hfind]
      · intro q hq
        have hq' : q ∈ candidatePrimaries db e p := by
          rw [hprims]
          exact List.mem_cons_of_mem u hq
        have hqp := prims_props db e p hwf q hq'
        have hqid : q.id ∈ td.map (fun q => q.id) := List.mem_map.2 ⟨q, hq, rfl⟩
        have hdem := demoteList_demoted td u.id now q hids.2 hids.1 hqid hqp.2.2.2
        have hcin : demoteList td u.id now q ∈ dbAfterWrites db e p now u td :=
          db2_subset_dbAfterWrites db e p now u td _ (demoteAll_mem_image db td u.id now q hqp.1)
        rw [hdem] at hcin
        have hcfin :
            ({ q with linkedid := some u.id, linkprecedence := Precedence.secondary, updateat := now } : Contact) ∈
              getAllContactsLinkedToPrimary (dbAfterWrites db e p now u td) u.id := by
          rw [mem_getAllContactsLinkedToPrimary]
          exact ⟨hcin, Or.inr rfl, hqp.2.1⟩
        apply List.mem_map.2
        refine ⟨_, List.mem_filter.2 ⟨hcfin, ?_⟩, rfl⟩
        rw [decide_eq_true_eq]

theorem c1_merge_precedence_witness :
    (∀ q ∈ candidatePrimaries wdbC1 (some "a@x.com") (some "222"),
        (mkC 1 none (some "a@x.com") none Precedence.primary 0 none).createdat ≤ q.createdat) ∧
    (∀ q ∈ [mkC 2 (some "222") none none Precedence.primary 5 none],
        ∃ c ∈ (identify wdbC1 (some "a@x.com") (some "222") 9).1,
          c.id = q.id ∧ c.linkprecedence = Precedence.secondary ∧
          c.linkedid = some (mkC 1 none (some "a@x.com") none Precedence.primary 0 none).id) ∧
    (∃ resp, (identify wdbC1 (some "a@x.com") (some "222") 9).2 = some resp ∧
        resp.primaryContactId = (mkC 1 none (some "a@x.com") none Precedence.primary 0 none).id ∧
        ∀ q ∈ [mkC 2 (some "222") none none Precedence.primary 5 none],
          q.id ∈ resp.secondaryContactIds) :=
  c1_merge_precedence wdbC1 (some "a@x.com") (some "222") 9
    (mkC 1 none (some "a@x.com") none Precedence.primary 0 none)
    [mkC 2 (some "222") none none Precedence.primary 5 none]
    (by decide) (by decide) (by decide)

theorem wf_no_chain (db : List Contact) (hwf : WellFormed db) :
    ∀ c ∈ db, ∀ t ∈ db, some t.id = c.linkedid → t.linkprecedence = Precedence.primary := by
  intro c hc t ht hlink
  cases hcp : c.linkprecedence with
  | primary =>
    rw [hwf.2.2.1 c hc hcp] at hlink
    exact Option.noConfusion hlink
  | secondary =>
    rcases hwf.2.2.2 c hc hcp with ⟨t0, ht0, hid0, hp0, _⟩
    have hidq : t.id = t0.id := by
      rw [← hid0] at hlink
      exact Option.some_injective Nat hlink
    rw [db_uniq db hwf.1 t ht t0 ht0 hidq]
    exact hp0

theorem dbw_id_primary (db : List Contact) (e p : Option String) (now : Nat)
    (hwf : WellFormed db) (u : Contact) (td : List Contact)
    (hprims : candidatePrimaries db e p = u :: td) :
    ∀ t ∈ dbAfterWrites db e p now u td, t.id = u.id →
      t.linkprecedence = Precedence.primary := by
  intro t ht hid
  have hu := prims_props db e p hwf u (hprims ▸ List.mem_cons_self u td)
  rcases mem_dbAfterWrites_cases db e p now u td t ht with h | h
  · rcases demoteAll_mem_rev db td u.id now t h with ⟨y, hy, rfl⟩
    have hfields := (demoteList_fields td u.id now y).1
    rw [hfields] at hid
    have hyu : y = u := db_uniq db hwf.1 y hy u hu.1 hid
    rw [hyu, u_fixed db e p now hwf u td hprims]
    exact hu.2.2.1
  · exfalso
    rw [h, createContact_snd] at hid
    have hid2 : nextId (demoteAll db td u.id now) = u.id := hid
    have humem : demoteList td u.id now u ∈ demoteAll db td u.id now :=
      demoteAll_mem_image db td u.id now u hu.1
    rw [u_fixed db e p now hwf u td hprims] at humem
    have hlt := id_lt_nextId _ u humem
    rw [hid2] at hlt
    exact lt_irrefl _ hlt

theorem uid_mem_db2_ids (db : List Contact) (now : Nat)
    (u : Contact) (td : List Contact) (t0 : Contact)
    (ht0 : t0 ∈ db) :
    t0.id < nextId (demoteAll db td u.id now) := by
  have := demoteAll_mem_image db td u.id now t0 ht0
  have hlt := id_lt_nextId _ _ this
  rw [(demoteList_fields td u.id now t0).1] at hlt
  exact hlt

/-- C2: after any `/identify` run on a well-formed store, no contact's
`linkedid` refers to a secondary contact (at most one level of
indirection); no contact ends linked to any demoted primary; and every
contact that was linked to a demoted primary ends with its `linkedid`
pointing directly at the ultimate primary (the head of the candidate
primary list), never at its old parent. -/
theorem repointed_to_ultimate (db : List Contact) (e p : Option String) (now : Nat)
    (hwf : WellFormed db) (u : Contact) (td : List Contact)
    (hprims : candidatePrimaries db e p = u :: td) :
    ∀ c ∈ db, (∃ q ∈ td, c.linkedid = some q.id) →
      ∃ c' ∈ (identify db e p now).1, c'.id = c.id ∧ c'.linkedid = some u.id := by
  rintro c hc ⟨q, hq, hlk⟩
  have hseed := candidatePrimaries_seed_ne db e p u td hprims
  have hid := identify_matched db e p now u td hseed hprims
  have hids := prims_cons_ids db e p u td hprims
  have hcid : c.id ∉ td.map (fun q => q.id) := by
    intro hmem
    rcases List.mem_map.1 hmem with ⟨q', hq', hq'id⟩
    have hq'p := prims_props db e p hwf q'
      (by rw [hprims]; exact List.mem_cons_of_mem u hq')
    have hqc : q' = c := db_uniq db hwf.1 q' hq'p.1 c hc hq'id
    have hcprim : c.linkprecedence = Precedence.primary := by
      rw [← hqc]
      exact hq'p.2.2.1
    rw [hwf.2.2.1 c hc hcprim] at hlk
    exact Option.noConfusion hlk
  have hrep := demoteList_repointed td u.id now c q.id hids.2 hids.1 hcid hlk
    (List.mem_map.2 ⟨q, hq, rfl⟩)
  have hmem2 : demoteList td u.id now c ∈ dbAfterWrites db e p now u td :=
    db2_subset_dbAfterWrites db e p now u td _ (demoteAll_mem_image db td u.id now c hc)
  rw [hrep] at hmem2
  rw [hid]
  exact ⟨_, hmem2, rfl, rfl⟩

theorem c2_no_chains (db : List Contact) (e p : Option String) (now : Nat)
    (hwf : WellFormed db) :
    (∀ c ∈ (identify db e p now).1, ∀ t ∈ (identify db e p now).1,
        some t.id = c.linkedid → t.linkprecedence = Precedence.primary) ∧
    (∀ c ∈ (identify db e p now).1, ∀ q ∈ (candidatePrimaries db e p).tail,
        c.linkedid ≠ some q.id) ∧
    (∀ u td, candidatePrimaries db e p = u :: td →
      ∀ c ∈ db, (∃ q ∈ td, c.linkedid = some q.id) →
        ∃ c' ∈ (identify db e p now).1, c'.id = c.id ∧ c'.linkedid = some u.id) := by
  have hmain :
      (∀ c ∈ (identify db e p now).1, ∀ t ∈ (identify db e p now).1,
          some t.id = c.linkedid → t.linkprecedence = Precedence.primary) ∧
      (∀ c ∈ (identify db e p now).1, ∀ q ∈ (candidatePrimaries db e p).tail,
          c.linkedid ≠ some q.id) := by
    by_cases hseed : findContactsByEmailOrPhone db e p = []
    · have hid := identify_nomatch db e p now hseed
      have htail : (candidatePrimaries db e p).tail = [] := by
        rw [seed_nil_candidatePrimaries db e p hseed]
        rfl
      rw [hid, htail]
      dsimp only
      rw [createContact_fst]
      constructor
      · intro c hc t ht hlink
        rcases List.mem_append.1 hc with hc2 | hc2
        · cases hcp : c.linkprecedence with
          | primary =>
            rw [hwf.2.2.1 c hc2 hcp] at hlink
            exact Option.noConfusion hlink
          | secondary =>
            rcases hwf.2.2.2 c hc2 hcp with ⟨t0, ht0, hid0, hp0, _⟩
            have hidq : t.id = t0.id := by
              rw [← hid0] at hlink
              exact Option.some_injective Nat hlink
            rcases List.mem_append.1 ht with ht2 | ht2
            · rw [db_uniq db hwf.1 t ht2 t0 ht0 hidq]
              exact hp0
            · exfalso
              rw [List.mem_singleton.1 ht2, createContact_snd] at hidq
              have hidq2 : nextId db = t0.id := hidq
              have := id_lt_nextId db t0 ht0
              rw [hidq2] at this
              exact lt_irrefl _ this
        · exfalso
          rw [List.mem_singleton.1 hc2, createContact_snd] at hlink
          exact Option.noConfusion hlink
      · intro c hc q hq
        cases hq
    · cases hp : candidatePrimaries db e p with
      | nil =>
        have hid := identify_crash db e p now hseed hp
        rw [hid]
        dsimp only
        exact ⟨wf_no_chain db hwf, fun c hc q hq => absurd hq (by cases hq)⟩
      | cons u td =>
        have hid := identify_matched db e p now u td hseed hp
        have hids := prims_cons_ids db e p u td hp
        have hu := prims_props db e p hwf u (hp ▸ List.mem_cons_self u td)
        rw [hid]
        dsimp only
        constructor
        · intro c hc t ht hlink
          rcases mem_dbAfterWrites_cases db e p now u td c hc with hc2 | hc2
          · rcases demoteAll_mem_rev db td u.id now c hc2 with ⟨x, hx, rfl⟩
            rcases demoteList_linkedid_cases td u.id now x with hl | hl
            · rw [hl] at hlink
              exact dbw_id_primary db e p now hwf u td hp t ht
                (Option.some_injective Nat hlink)
            · rw [hl] at hlink
              cases hxp : x.linkprecedence with
              | primary =>
                rw [hwf.2.2.1 x hx hxp] at hlink
                exact Option.noConfusion hlink
              | secondary =>
                rcases hwf.2.2.2 x hx hxp with ⟨t0, ht0, hid0, hp0, _⟩
                have hidq : t.id = t0.id := by
                  rw [← hid0] at hlink
                  exact Option.some_injective Nat hlink
                have ht0nd : t0.id ∉ td.map (fun q => q.id) := by
                  intro hmem
                  have := demoteList_no_demoted_link td u.id now x hids.1
                  rcases List.mem_map.1 hmem with ⟨q0, hq0, hq0id⟩
                  apply this q0 hq0
                  rw [hl, ← hid0, hq0id]
                rcases mem_dbAfterWrites_cases db e p now u td t ht with ht2 | ht2
                · rcases demoteAll_mem_rev db td u.id now t ht2 with ⟨y, hy, rfl⟩
                  have hyid : y.id = t0.id := by
                    rw [← (demoteList_fields td u.id now y).1]
                    exact hidq
                  have hyt0 : y = t0 := db_uniq db hwf.1 y hy t0 ht0 hyid
                  have hyprec : (demoteList td u.id now y).linkprecedence = y.linkprecedence :=
                    demoteList_prec_of_not_mem td u.id now y
                      (fun q hq hqq => ht0nd (List.mem_map.2 ⟨q, hq, (hqq.symm.trans hyid)⟩))
                  rw [hyprec, hyt0]
                  exact hp0
                · exfalso
                  rw [ht2, createContact_snd] at hidq
                  have hidq2 : nextId (demoteAll db td u.id now) = t0.id := hidq
                  have := uid_mem_db2_ids db now u td t0 ht0
                  rw [hidq2] at this
                  exact lt_irrefl _ this
          · rw [hc2, createContact_snd] at hlink
            exact dbw_id_primary db e p now hwf u td hp t ht
              (Option.some_injective Nat hlink)
        · intro c hc q hq
          rcases mem_dbAfterWrites_cases db e p now u td c hc with hc2 | hc2
          · rcases demoteAll_mem_rev db td u.id now c hc2 with ⟨x, hx, rfl⟩
            exact demoteList_no_demoted_link td u.id now x hids.1 q hq
          · rw [hc2, createContact_snd]
            intro hcontra
            have : u.id = q.id := Option.some_injective Nat hcontra
            exact hids.1 (this ▸ List.mem_map.2 ⟨q, hq, rfl⟩)

  exact ⟨hmain.1, hmain.2,
    fun u td hprims => repointed_to_ultimate db e p now hwf u td hprims⟩

theorem c2_no_chains_witness :
    (∀ c ∈ (identify wdbC2 (some "a@x.com") (some "222") 9).1,
        ∀ t ∈ (identify wdbC2 (some "a@x.com") (some "222") 9).1,
          some t.id = c.linkedid → t.linkprecedence = Precedence.primary) ∧
    (∀ c ∈ (identify wdbC2 (some "a@x.com") (some "222") 9).1,
        ∀ q ∈ (candidatePrimaries wdbC2 (some "a@x.com") (some "222")).tail,
          c.linkedid ≠ some q.id) ∧
    (∀ u td, candidatePrimaries wdbC2 (some "a@x.com") (some "222") = u :: td →
      ∀ c ∈ wdbC2, (∃ q ∈ td, c.linkedid = some q.id) →
        ∃ c' ∈ (identify wdbC2 (some "a@x.com") (some "222") 9).1,
          c'.id = c.id ∧ c'.linkedid = some u.id) :=
  c2_no_chains wdbC2 (some "a@x.com") (some "222") 9 (by decide)

/-- C6: the code does not reject an all-empty request — submitting neither
an email nor a phone against an empty store runs the no-match path, creates
one primary contact with null email and phone, and returns a success
response; the claim (and the spec's ValidationError taxonomy) requires a
client-error rejection before any core logic with no row created. -/
theorem c6_empty_request_creates_contact :
    identify [] none none 3 =
      ([mkC 1 none none none Precedence.primary 3 none],
       some { primaryContactId := 1, emails := [], phoneNumbers := [],
              secondaryContactIds := [] }) := by
  rfl

/-- C9: submitting just an email against an empty store creates exactly one
contact, a primary with no linkedid carrying that email, and returns its id
with emails a singleton, phoneNumbers empty and secondaryContactIds empty. -/
theorem c9_no_match_creates_primary :
    identify [] (some "a@x.com") none 7 =
      ([mkC 1 none (some "a@x.com") none Precedence.primary 7 none],
       some { primaryContactId := 1, emails := ["a@x.com"], phoneNumbers := [],
              secondaryContactIds := [] }) := by
  rfl

/-- C10: the handler's ultimate primary is not always defined — when the
only matching contact is a live secondary whose linked primary is
soft-deleted, the matched set is non-empty yet the candidate-primary list
is empty, so `allPrimaryContacts[0]` is undefined and the handler throws
(catch answers 500, modelled as `none`) with the store unchanged,
contradicting the code's own comment `guaranteed to exist because we have
contacts`. -/
theorem c10_undefined_ultimate :
    findContactsByEmailOrPhone wdbC10 (some "f@x.com") none ≠ [] ∧
    candidatePrimaries wdbC10 (some "f@x.com") none = [] ∧
    identify wdbC10 (some "f@x.com") none 9 = (wdbC10, none) := by
  decide

/-- C8 counterexample: a membership list with two primaries does not make
the response builder fail — `contacts.find(...)` returns the first primary
and a consolidated response is produced. -/
theorem c8_two_primaries_no_failure :
    (wdbC8.filter (fun c => decide (c.linkprecedence = Precedence.primary))).length = 2 ∧
    buildResponse wdbC8 =
      some { primaryContactId := 1, emails := ["e@x.com"], phoneNumbers := ["888"],
             secondaryContactIds := [] } := by
  decide

/-- C8 amended: the response builder fails (the `!` non-null assertion
throws, modelled as `none`) exactly when the membership contains zero
primaries; with more than one primary it does not fail and silently builds
the response around the first primary found. -/
theorem c8_builder_none_iff_no_primary (cs : List Contact) :
    buildResponse cs = none ↔ ∀ c ∈ cs, c.linkprecedence ≠ Precedence.primary :=
  buildResponse_eq_none_iff cs

theorem c8_builder_none_iff_no_primary_witness :
    buildResponse [] = none ↔
      ∀ c ∈ ([] : List Contact), c.linkprecedence ≠ Precedence.primary :=
  c8_builder_none_iff_no_primary []

/-- C5: resubmitting an (email, phone) pair that already fully matches a
single existing cluster is idempotent — the store is unchanged (zero
inserted rows, no demotions, no link updates), the handler succeeds, and
rerunning the identical request at any later time yields the identical
store and response. -/
theorem c5_idempotent (db : List Contact) (e p : Option String) (n1 n2 : Nat)
    (u : Contact)
    (hprims : candidatePrimaries db e p = [u])
    (hemail : isNewEmail db e p = false)
    (hphone : isNewPhone db e p = false) :
    (identify db e p n1).1 = db ∧
    (∃ resp, (identify db e p n1).2 = some resp) ∧
    identify db e p n1 = identify db e p n2 := by
  have hseed := candidatePrimaries_seed_ne db e p u [] hprims
  have hid1 := identify_matched db e p n1 u [] hseed hprims
  have hid2 := identify_matched db e p n2 u [] hseed hprims
  have hdbw : ∀ n : Nat, dbAfterWrites db e p n u [] = db := by
    intro n
    unfold dbAfterWrites
    rw [hemail, hphone]
    rfl
  have hu1 := candidatePrimaries_mem db e p u (hprims ▸ List.mem_cons_self u [])
  have hu2 := candidateContacts_mem db e p u hu1.1
  have hufin : u ∈ getAllContactsLinkedToPrimary db u.id :=
    (mem_getAllContactsLinkedToPrimary db u.id u).2 ⟨hu2.1, Or.inl rfl, hu2.2⟩
  refine ⟨?_, ?_, ?_⟩
  · rw [hid1, hdbw n1]
  · rw [hid1, hdbw n1]
    dsimp only
    cases hfind : (getAllContactsLinkedToPrimary db u.id).find?
        (fun c => decide (c.linkprecedence = Precedence.primary)) with
    | none =>
      exfalso
      have hn := List.find?_eq_none.1 hfind u hufin
      rw [decide_eq_true_eq] at hn
      exact hn hu1.2
    | some pr =>
      refine ⟨{ primaryContactId := pr.id
              , emails := getAllEmails (getAllContactsLinkedToPrimary db u.id)
              , phoneNumbers := getAllPhones (getAllContactsLinkedToPrimary db u.id)
              , secondaryContactIds :=
                  ((getAllContactsLinkedToPrimary db u.id).filter
                    (fun c => decide (c.linkprecedence = Precedence.secondary))).map
                    (fun c => c.id) }, ?_⟩
      show buildResponse _ = some _
      unfold buildResponse
      rw [hfind]
  · rw [hid1, hid2, hdbw n1, hdbw n2]

theorem c5_idempotent_witness :
    (identify wdbC5 (some "c@x.com") (some "111") 4).1 = wdbC5 ∧
    (∃ resp, (identify wdbC5 (some "c@x.com") (some "111") 4).2 = some resp) ∧
    identify wdbC5 (some "c@x.com") (some "111") 4 =
      identify wdbC5 (some "c@x.com") (some "111") 8 :=
  c5_idempotent wdbC5 (some "c@x.com") (some "111") 4 8
    (mkC 1 (some "111") (some "c@x.com") none Precedence.primary 0 none)
    (by decide) (by decide) (by decide)

/-- C7: soft-deleted contacts are never treated as matches and never
contribute to a consolidated response — every matched contact is live, and
every id, email and phone appearing in a successful response is witnessed
by a live stored contact. -/
theorem c7_deleted_excluded (db : List Contact) (e p : Option String) (now : Nat) :
    (∀ c ∈ findContactsByEmailOrPhone db e p, c.deletedat = none) ∧
    (∀ resp, (identify db e p now).2 = some resp →
      (∃ c ∈ (identify db e p now).1, c.id = resp.primaryContactId ∧ c.deletedat = none) ∧
      (∀ i ∈ resp.secondaryContactIds,
        ∃ c ∈ (identify db e p now).1, c.id = i ∧ c.deletedat = none) ∧
      (∀ s ∈ resp.emails,
        ∃ c ∈ (identify db e p now).1, c.email = some s ∧ c.deletedat = none) ∧
      (∀ s ∈ resp.phoneNumbers,
        ∃ c ∈ (identify db e p now).1, c.phonenumber = some s ∧ c.deletedat = none)) := by
  constructor
  · intro c hc
    exact (seed_mem db e p c hc).2.2
  · intro resp hresp
    by_cases hseed : findContactsByEmailOrPhone db e p = []
    · have hid := identify_nomatch db e p now hseed
      rw [hid] at hresp ⊢
      dsimp only at hresp ⊢
      have hresp2 := (Option.some.inj hresp).symm
      subst hresp2
      have hnew : (createContact db e p none Precedence.primary now).2 ∈
          (createContact db e p none Precedence.primary now).1 := by
        rw [createContact_fst]
        exact List.mem_append.2 (Or.inr (List.mem_singleton.2 rfl))
      refine ⟨⟨_, hnew, rfl, rfl⟩, ?_, ?_, ?_⟩
      · intro i hi
        cases hi
      · intro s hs
        refine ⟨_, hnew, ?_, rfl⟩
        rwa [Option.mem_toList, Option.mem_def] at hs
      · intro s hs
        refine ⟨_, hnew, ?_, rfl⟩
        rwa [Option.mem_toList, Option.mem_def] at hs
    · cases hp : candidatePrimaries db e p with
      | nil =>
        rw [identify_crash db e p now hseed hp] at hresp
        cases hresp
      | cons u td =>
        rw [identify_matched db e p now u td hseed hp] at hresp ⊢
        dsimp only at hresp ⊢
        unfold buildResponse at hresp
        cases hfind : (getAllContactsLinkedToPrimary (dbAfterWrites db e p now u td) u.id).find?
            (fun c => decide (c.linkprecedence = Precedence.primary)) with
        | none =>
          rw [hfind] at hresp
          cases hresp
        | some pr =>
          rw [hfind] at hresp
          have hresp2 := (Option.some.inj hresp).symm
          subst hresp2
          have hprfin := List.mem_of_find?_eq_some hfind
          have hprprops := (mem_getAllContactsLinkedToPrimary _ _ pr).1 hprfin
          refine ⟨⟨pr, hprprops.1, rfl, hprprops.2.2⟩, ?_, ?_, ?_⟩
          · intro i hi
            rcases List.mem_map.1 hi with ⟨c, hc, hci⟩
            have hcfin := (List.mem_filter.1 hc).1
            have hcprops := (mem_getAllContactsLinkedToPrimary _ _ c).1 hcfin
            exact ⟨c, hcprops.1, hci, hcprops.2.2⟩
          · intro s hs
            rcases (mem_getAllEmails _ s).1 hs with ⟨c, hcfin, hcs⟩
            have hcprops := (mem_getAllContactsLinkedToPrimary _ _ c).1 hcfin
            exact ⟨c, hcprops.1, hcs, hcprops.2.2⟩
          · intro s hs
            rcases (mem_getAllPhones _ s).1 hs with ⟨c, hcfin, hcs⟩
            have hcprops := (mem_getAllContactsLinkedToPrimary _ _ c).1 hcfin
            exact ⟨c, hcprops.1, hcs, hcprops.2.2⟩

theorem c7_deleted_excluded_witness :
    (∀ c ∈ findContactsByEmailOrPhone wdbC7 (some "d@x.com") none, c.deletedat = none) ∧
    (∀ resp, (identify wdbC7 (some "d@x.com") none 6).2 = some resp →
      (∃ c ∈ (identify wdbC7 (some "d@x.com") none 6).1,
        c.id = resp.primaryContactId ∧ c.deletedat = none) ∧
      (∀ i ∈ resp.secondaryContactIds,
        ∃ c ∈ (identify wdbC7 (some "d@x.com") none 6).1, c.id = i ∧ c.deletedat = none) ∧
      (∀ s ∈ resp.emails,
        ∃ c ∈ (identify wdbC7 (some "d@x.com") none 6).1,
          c.email = some s ∧ c.deletedat = none) ∧
      (∀ s ∈ resp.phoneNumbers,
        ∃ c ∈ (identify wdbC7 (some "d@x.com") none 6).1,
          c.phonenumber = some s ∧ c.deletedat = none)) :=
  c7_deleted_excluded wdbC7 (some "d@x.com") none 6

/-! ### C3: the insertion decision against the spec's full-membership union -/

theorem prec_not_primary (x : Precedence) (h : x ≠ Precedence.primary) :
    x = Precedence.secondary := by
  cases x with
  | primary => exact absurd rfl h
  | secondary => rfl

theorem mem_specClusterMembers (db : List Contact) (e p : Option String) (m : Contact) :
    m ∈ specClusterMembers db e p ↔
      m ∈ candidatePrimaries db e p ∨
      (m ∈ db ∧ (∃ q ∈ candidatePrimaries db e p, m.linkedid = some q.id) ∧
        m.deletedat = none) := by
  unfold specClusterMembers
  rw [List.mem_append]
  constructor
  · rintro (h | h)
    · exact Or.inl h
    · rw [List.mem_filter] at h
      rcases h with ⟨hdb, hpred⟩
      rw [Bool.and_eq_true, List.any_eq_true] at hpred
      rcases hpred.1 with ⟨q, hq, hqd⟩
      rw [decide_eq_true_eq] at hqd
      have hdel := hpred.2
      rw [decide_eq_true_eq] at hdel
      exact Or.inr ⟨hdb, ⟨q, hq, hqd⟩, hdel⟩
  · rintro (h | ⟨hdb, ⟨q, hq, hqd⟩, hdel⟩)
    · exact Or.inl h
    · refine Or.inr (List.mem_filter.2 ⟨hdb, ?_⟩)
      rw [Bool.and_eq_true, List.any_eq_true]
      exact ⟨⟨q, hq, by rw [decide_eq_true_eq]; exact hqd⟩,
        by rw [decide_eq_true_eq]; exact hdel⟩

theorem specClusterMembers_props (db : List Contact) (e p : Option String) (m : Contact)
    (hm : m ∈ specClusterMembers db e p) : m ∈ db ∧ m.deletedat = none := by
  rcases (mem_specClusterMembers db e p m).1 hm with h | h
  · exact candidateContacts_mem db e p m (candidatePrimaries_mem db e p m h).1
  · exact ⟨h.1, h.2.2⟩

theorem secondary_not_in_fetched (db : List Contact) (e p : Option String)
    (hwf : WellFormed db) (c : Contact) (hcp : c.linkprecedence = Precedence.secondary)
    (hc : c ∈ candidateContacts db e p) :
    c ∈ findContactsByEmailOrPhone db e p := by
  unfold candidateContacts at hc
  rcases List.mem_append.1 (dedupById_subset _ c hc) with h | h
  · exact h
  · exfalso
    have hprops := primariesFromDb_mem db _ c h
    rcases (mem_primaryIds_iff _ c.id).1 hprops.2.1 with ⟨c', hc', hcase⟩
    have hc'db : c' ∈ db := (seed_mem db e p c' hc').1
    rcases hcase with ⟨hp', hid'⟩ | ⟨hp', hid', _⟩
    · have : c' = c := db_uniq db hwf.1 c' hc'db c hprops.1 hid'
      rw [this] at hp'
      rw [hp'] at hcp
      exact Precedence.noConfusion hcp
    · rcases hwf.2.2.2 c' hc'db (prec_not_primary _ hp') with ⟨t1, ht1, hid1, hp1, _⟩
      rw [hid'] at hid1
      have : t1 = c := db_uniq db hwf.1 t1 ht1 c hprops.1 (Option.some_injective Nat hid1)
      rw [this] at hp1
      rw [hp1] at hcp
      exact Precedence.noConfusion hcp

theorem email_decision_eq (db : List Contact) (e p : Option String) (s : String)
    (hwf : WellFormed db) (he : e = some s) :
    s ∈ getAllEmails (candidateContacts db e p) ↔ s ∈ specAllEmails db e p := by
  rw [mem_getAllEmails]
  unfold specAllEmails
  rw [mem_setDedup, List.mem_filterMap]
  constructor
  · rintro ⟨c, hc, hcs⟩
    cases hcp : c.linkprecedence with
    | primary =>
      exact ⟨c, (mem_specClusterMembers db e p c).2
        (Or.inl (mem_candidatePrimaries_of db e p c hc hcp)), hcs⟩
    | secondary =>
      have hcdb := candidateContacts_mem db e p c hc
      rcases hwf.2.2.2 c hcdb.1 hcp with ⟨t0, ht0, hid0, hp0, hlive0⟩
      have hcseed := secondary_not_in_fetched db e p hwf c hcp hc
      have hpid : t0.id ∈ primaryIds (findContactsByEmailOrPhone db e p) := by
        apply (mem_primaryIds_iff _ t0.id).2
        refine ⟨c, hcseed, Or.inr ⟨?_, hid0.symm, hwf.2.1 t0 ht0⟩⟩
        rw [hcp]
        exact fun h => Precedence.noConfusion h
      have ht0fetched := mem_primariesFromDb_of db _ t0 ht0 hpid hlive0
      have ht0cc := mem_candidateContacts_of_fetched db e p hwf.1 t0 ht0fetched
      have ht0prims := mem_candidatePrimaries_of db e p t0 ht0cc hp0
      refine ⟨c, (mem_specClusterMembers db e p c).2 ?_, hcs⟩
      exact Or.inr ⟨hcdb.1, ⟨t0, ht0prims, hid0.symm⟩, hcdb.2⟩
  · rintro ⟨m, hm, hms⟩
    have hprops := specClusterMembers_props db e p m hm
    have hne : ¬(e = none ∧ p = none) := by
      rintro ⟨h1, _⟩
      rw [he] at h1
      cases h1
    have hmatch : matchesRequest e p m = true := by
      unfold matchesRequest
      rw [he]
      dsimp only
      rw [Bool.or_eq_true]
      exact Or.inl (by rw [decide_eq_true_eq]; exact hms)
    have hmseed := mem_seed_of db e p m hne hprops.1 hmatch hprops.2
    exact ⟨m, mem_candidateContacts_of_seed db e p hwf.1 m hmseed, hms⟩

theorem phone_decision_eq (db : List Contact) (e p : Option String) (s : String)
    (hwf : WellFormed db) (hp : p = some s) :
    s ∈ getAllPhones (candidateContacts db e p) ↔ s ∈ specAllPhones db e p := by
  rw [mem_getAllPhones]
  unfold specAllPhones
  rw [mem_setDedup, List.mem_filterMap]
  constructor
  · rintro ⟨c, hc, hcs⟩
    cases hcp : c.linkprecedence with
    | primary =>
      exact ⟨c, (mem_specClusterMembers db e p c).2
        (Or.inl (mem_candidatePrimaries_of db e p c hc hcp)), hcs⟩
    | secondary =>
      have hcdb := candidateContacts_mem db e p c hc
      rcases hwf.2.2.2 c hcdb.1 hcp with ⟨t0, ht0, hid0, hp0, hlive0⟩
      have hcseed := secondary_not_in_fetched db e p hwf c hcp hc
      have hpid : t0.id ∈ primaryIds (findContactsByEmailOrPhone db e p) := by
        apply (mem_primaryIds_iff _ t0.id).2
        refine ⟨c, hcseed, Or.inr ⟨?_, hid0.symm, hwf.2.1 t0 ht0⟩⟩
        rw [hcp]
        exact fun h => Precedence.noConfusion h
      have ht0fetched := mem_primariesFromDb_of db _ t0 ht0 hpid hlive0
      have ht0cc := mem_candidateContacts_of_fetched db e p hwf.1 t0 ht0fetched
      have ht0prims := mem_candidatePrimaries_of db e p t0 ht0cc hp0
      refine ⟨c, (mem_specClusterMembers db e p c).2 ?_, hcs⟩
      exact Or.inr ⟨hcdb.1, ⟨t0, ht0prims, hid0.symm⟩, hcdb.2⟩
  · rintro ⟨m, hm, hms⟩
    have hprops := specClusterMembers_props db e p m hm
    have hne : ¬(e = none ∧ p = none) := by
      rintro ⟨_, h2⟩
      rw [hp] at h2
      cases h2
    have hmatch : matchesRequest e p m = true := by
      unfold matchesRequest
      rw [hp]
      dsimp only
      rw [Bool.or_eq_true]
      exact Or.inr (by rw [decide_eq_true_eq]; exact hms)
    have hmseed := mem_seed_of db e p m hne hprops.1 hmatch hprops.2
    exact ⟨m, mem_candidateContacts_of_seed db e p hwf.1 m hmseed, hms⟩

theorem isNewEmail_eq_spec (db : List Contact) (e p : Option String)
    (hwf : WellFormed db) :
    isNewEmail db e p = specIsNewEmail db e p := by
  unfold isNewEmail specIsNewEmail
  cases e with
  | none => rfl
  | some s =>
    dsimp only
    congr 1
    exact decide_eq_decide.2 (email_decision_eq db (some s) p s hwf rfl)

theorem isNewPhone_eq_spec (db : List Contact) (e p : Option String)
    (hwf : WellFormed db) :
    isNewPhone db e p = specIsNewPhone db e p := by
  unfold isNewPhone specIsNewPhone
  cases p with
  | none => rfl
  | some s =>
    dsimp only
    congr 1
    exact decide_eq_decide.2 (phone_decision_eq db e (some s) s hwf rfl)

theorem demoteAll_length (db td : List Contact) (uid now : Nat) :
    (demoteAll db td uid now).length = db.length := by
  rw [demoteAll_eq_map, List.length_map]

/-- C3: the handler's new-information decision (`isNewEmail`/`isNewPhone`,
computed over the gathered contacts) equals the decision taken against the
deduplicated union of emails/phones over the complete membership of every
candidate cluster (each candidate primary plus all non-deleted contacts
linked to it), and a new secondary row is inserted precisely when the
submitted email or phone is absent from that full-membership union. -/
theorem c3_new_info_decision (db : List Contact) (e p : Option String) (now : Nat)
    (u : Contact) (td : List Contact) (hwf : WellFormed db)
    (hprims : candidatePrimaries db e p = u :: td) :
    isNewEmail db e p = specIsNewEmail db e p ∧
    isNewPhone db e p = specIsNewPhone db e p ∧
    (identify db e p now).1.length =
      db.length + (if specIsNewEmail db e p || specIsNewPhone db e p then 1 else 0) ∧
    ((specIsNewEmail db e p || specIsNewPhone db e p) = true →
      ∃ c, (identify db e p now).1 = demoteAll db td u.id now ++ [c] ∧
        c.linkprecedence = Precedence.secondary ∧ c.linkedid = some u.id) := by
  have hE := isNewEmail_eq_spec db e p hwf
  have hP := isNewPhone_eq_spec db e p hwf
  have hseed := candidatePrimaries_seed_ne db e p u td hprims
  have hid := identify_matched db e p now u td hseed hprims
  refine ⟨hE, hP, ?_, ?_⟩
  · rw [hid]
    dsimp only
    unfold dbAfterWrites
    rw [hE, hP]
    by_cases hcond : (specIsNewEmail db e p || specIsNewPhone db e p) = true
    · rw [if_pos hcond, if_pos hcond, createContact_fst, List.length_append,
        demoteAll_length]
      rfl
    · rw [if_neg hcond, if_neg hcond, demoteAll_length]
      rfl
  · intro hcond
    rw [hid]
    dsimp only
    unfold dbAfterWrites
    rw [hE, hP, if_pos hcond, createContact_fst]
    exact ⟨_, rfl, rfl, rfl⟩

theorem c3_new_info_decision_witness :
    isNewEmail wdbC3 (some "a@x.com") (some "222") =
      specIsNewEmail wdbC3 (some "a@x.com") (some "222") ∧
    isNewPhone wdbC3 (some "a@x.com") (some "222") =
      specIsNewPhone wdbC3 (some "a@x.com") (some "222") ∧
    (identify wdbC3 (some "a@x.com") (some "222") 9).1.length =
      wdbC3.length +
        (if specIsNewEmail wdbC3 (some "a@x.com") (some "222") ||
            specIsNewPhone wdbC3 (some "a@x.com") (some "222") then 1 else 0) ∧
    ((specIsNewEmail wdbC3 (some "a@x.com") (some "222") ||
        specIsNewPhone wdbC3 (some "a@x.com") (some "222")) = true →
      ∃ c, (identify wdbC3 (some "a@x.com") (some "222") 9).1 =
          demoteAll wdbC3 []
            (mkC 1 none (some "a@x.com") none Precedence.primary 0 none).id 9 ++ [c] ∧
        c.linkprecedence = Precedence.secondary ∧
        c.linkedid = some (mkC 1 none (some "a@x.com") none Precedence.primary 0 none).id) :=
  c3_new_info_decision wdbC3 (some "a@x.com") (some "222") 9
    (mkC 1 none (some "a@x.com") none Precedence.primary 0 none) []
    (by decide) (by decide)

/-! ### C4: the write sequence and (absence of) atomicity -/

theorem applyWrites_append (ws1 ws2 : List (List Contact → List Contact))
    (db : List Contact) :
    applyWrites (ws1 ++ ws2) db = applyWrites ws2 (applyWrites ws1 db) := by
  unfold applyWrites
  rw [List.foldl_append]

theorem applyWrites_demoteWrites (td : List Contact) (uid now : Nat) (db : List Contact) :
    applyWrites (demoteWrites td uid now) db = demoteAll db td uid now := by
  induction td generalizing db with
  | nil => rfl
  | cons q ts ih =>
    have h1 : applyWrites (demoteWrites (q :: ts) uid now) db
        = applyWrites (demoteWrites ts uid now)
            (updateSecondaryLinks
              (updateContact db q.id (some uid) Precedence.secondary now) q.id uid now) := rfl
    rw [h1, ih]
    rfl

theorem identify_fst_eq_applyWrites (db : List Contact) (e p : Option String) (now : Nat) :
    (identify db e p now).1 = applyWrites (identifyWrites db e p now) db := by
  unfold identify identifyWrites
  by_cases hemp : (findContactsByEmailOrPhone db e p).isEmpty = true
  · rw [if_pos hemp, if_pos hemp]
    rfl
  · rw [if_neg hemp, if_neg hemp]
    cases hp : candidatePrimaries db e p with
    | nil => rfl
    | cons u td =>
      dsimp only
      rw [applyWrites_append, applyWrites_demoteWrites]
      unfold dbAfterWrites
      by_cases hcond : (isNewEmail db e p || isNewPhone db e p) = true
      · rw [if_pos hcond, if_pos hcond]
        rfl
      · rw [if_neg hcond, if_neg hcond]
        rfl

/-- C4: the merge plan's writes are not atomic — for a request that demotes
the younger primary under the older one and must re-parent its secondary,
the handler issues two independent UPDATE statements with no surrounding
transaction; stopping after the first write (a failure at the second)
leaves the store different from both the initial state and the
fully-applied state, so a mid-plan failure does not leave the graph as it
was before the request. -/
theorem c4_not_atomic :
    (identifyWrites wdbC4 (some "b@x.com") (some "444") 9).length = 2 ∧
    applyWrites ((identifyWrites wdbC4 (some "b@x.com") (some "444") 9).take 1) wdbC4
      ≠ wdbC4 ∧
    applyWrites ((identifyWrites wdbC4 (some "b@x.com") (some "444") 9).take 1) wdbC4
      ≠ (identify wdbC4 (some "b@x.com") (some "444") 9).1 := by
  decide
